import Mathlib

/-!
# Verification of the PYEditor timeline core

Shallow embedding, over `ℚ` for Python floats, of the timeline model of the
repository:

* `src/core/keyframing.py` — `Keyframe`, `KeyframeTrack`
* `src/ui/timeline_widget.py` — `TimelineClip`, `AutomationTrack`,
  `TimelineTrack`, `TimelineWidget`
* `src/core/timeline.py` — `TimelineClip` (core variant), `Track`, `Timeline`

Python exceptions are modelled with an explicit error type, and every stateful
method returns its result together with the state of the object after the call
(Python mutates in place, so an exceptional exit can leave mutated state
behind; the embedding makes that state visible).
-/

/-- The Python exceptions that the embedded code can raise. -/
inductive PyErr where
  | valueError : PyErr
  | attributeError : PyErr
  | indexError : PyErr
  deriving DecidableEq, Repr

/-! ## Small Python/library helpers -/

/-- Python `round` on a rational: round-half-to-even (banker's rounding),
returned as a rational integer. -/
def pyRound (q : ℚ) : ℚ :=
  let f : ℤ := ⌊q⌋
  let r : ℚ := q - f
  if r < 1/2 then (f : ℚ)
  else if 1/2 < r then (f + 1 : ℤ)
  else if f % 2 = 0 then (f : ℚ) else (f + 1 : ℤ)

/-- Python list indexing `xs[i]` for `i : ℤ`: non-negative indices in range,
negative indices counted from the end, out-of-range is `none` (`IndexError`). -/
def pyIndex (n : ℕ) (i : ℤ) : Option ℕ :=
  if 0 ≤ i ∧ i < (n : ℤ) then some i.toNat
  else if -(n : ℤ) ≤ i ∧ i < 0 then some ((n : ℤ) + i).toNat
  else none

/-- Apply `f` to the element at position `i` (in-place mutation of one list
element). -/
def updateAt {α : Type} (f : α → α) : ℕ → List α → List α
  | _, [] => []
  | 0, x :: xs => f x :: xs
  | n + 1, x :: xs => x :: updateAt f n xs

/-- Apply `f` to the first element satisfying `p` (Python mutates the object
returned by a linear `find`, which lives inside the list). -/
def updateFirst {α : Type} (p : α → Bool) (f : α → α) : List α → List α
  | [] => []
  | x :: xs => if p x then f x :: xs else x :: updateFirst p f xs

/-- Python `list.remove(x)`: drop the first element equal to `x`. -/
def removeFirst {α : Type} [DecidableEq α] (x : α) : List α → List α
  | [] => []
  | y :: ys => if y = x then ys else y :: removeFirst x ys

/-- Python `min(candidates, key=lambda t: abs(t - time))`: first element of
minimal distance to `time`. -/
def pyMinAbs (time : ℚ) (c : ℚ) (cs : List ℚ) : ℚ :=
  cs.foldl (fun best x => if |x - time| < |best - time| then x else best) c

/-- One step of an insertion sort on rationals (ascending). -/
def insortQ (x : ℚ) : List ℚ → List ℚ
  | [] => [x]
  | y :: ys => if x ≤ y then x :: y :: ys else y :: insortQ x ys

/-- Python `sorted` on a list of rationals. -/
def sortQ : List ℚ → List ℚ
  | [] => []
  | x :: xs => insortQ x (sortQ xs)

/-- Python `s.endswith(suffix)` on strings. -/
def endsWithStr (s suffix : String) : Bool :=
  suffix.data.isSuffixOf s.data

theorem insortQ_perm (x : ℚ) (m : List ℚ) : (insortQ x m).Perm (x :: m) := by
  induction m with
  | nil => simp [insortQ]
  | cons y ys ihy =>
      by_cases hxy : x ≤ y
      · simp [insortQ, hxy]
      · simp only [insortQ, hxy, if_false]
        exact ((ihy.cons y).trans (List.Perm.swap x y ys))

theorem insortQ_mem {x b : ℚ} {l : List ℚ} (hb : b ∈ insortQ x l) :
    b = x ∨ b ∈ l := by
  have := (insortQ_perm x l).mem_iff.1 hb
  simpa using this

theorem sortQ_perm (l : List ℚ) : (sortQ l).Perm l := by
  induction l with
  | nil => simp [sortQ]
  | cons x xs ih => exact (insortQ_perm x (sortQ xs)).trans (ih.cons x)

theorem insortQ_sorted {x : ℚ} {l : List ℚ} (h : l.Sorted (· ≤ ·)) :
    (insortQ x l).Sorted (· ≤ ·) := by
  induction l with
  | nil => simp [insortQ]
  | cons y ys ih =>
      by_cases hxy : x ≤ y
      · simp only [insortQ, hxy, if_true]
        refine List.sorted_cons.2 ⟨?_, h⟩
        intro b hb
        rcases List.mem_cons.1 hb with rfl | hb
        · exact hxy
        · exact hxy.trans ((List.sorted_cons.1 h).1 b hb)
      · simp only [insortQ, hxy, if_false]
        have hys := (List.sorted_cons.1 h).2
        refine List.sorted_cons.2 ⟨?_, ih hys⟩
        intro b hb
        rcases insortQ_mem hb with hb | hb
        · exact hb ▸ (le_of_not_le hxy)
        · exact (List.sorted_cons.1 h).1 b hb

theorem sortQ_sorted (l : List ℚ) : (sortQ l).Sorted (· ≤ ·) := by
  induction l with
  | nil => simp [sortQ]
  | cons x xs ih => exact insortQ_sorted ih

/-! ## `src/core/keyframing.py` -/

/-- `np.isclose(a, b)` with numpy's default tolerances
(`|a - b| <= atol + rtol * |b|`, `rtol = 1e-5`, `atol = 1e-8`). -/
def npIsClose (a b : ℚ) : Bool :=
  |a - b| ≤ 1 / 100000000 + (1 / 100000) * |b|

/-- `bisect.bisect_right(a, x)` on a sorted list: the insertion point after
all entries `≤ x`. -/
def bisectRight (a : List ℚ) (x : ℚ) : ℕ :=
  (a.takeWhile (fun y => decide (y ≤ x))).length

/-- `np.interp(x, [t1, t2], [v1, v2])`: linear interpolation with clamping at
the interval ends. -/
def npInterp (x t1 t2 v1 v2 : ℚ) : ℚ :=
  if x ≤ t1 then v1
  else if t2 ≤ x then v2
  else v1 + (v2 - v1) * ((x - t1) / (t2 - t1))

/-- `Keyframe`: a `(time, value)` control point. -/
structure Keyframe where
  time : ℚ
  value : ℚ
  deriving DecidableEq, Repr

/-- `KeyframeTrack`: the keyframe list of one animated property. -/
structure KeyframeTrack where
  keyframes : List Keyframe
  deriving DecidableEq, Repr

namespace KeyframeTrack

/-- `find_keyframe_index`: index of the first keyframe whose time is
`np.isclose` to `time`, if any. -/
def find_keyframe_index (tr : KeyframeTrack) (time : ℚ) : Option ℕ :=
  tr.keyframes.findIdx? (fun kf => npIsClose kf.time time)

/-- `bisect.insort(keyframes, kf, key=time)`: insert after entries with
key `≤ kf.time`, keeping the list sorted. -/
def insortKeyframe (kf : Keyframe) : List Keyframe → List Keyframe
  | [] => [kf]
  | k :: ks =>
      if k.time ≤ kf.time then k :: insortKeyframe kf ks else kf :: k :: ks

/-- `add_keyframe(time, value)`: overwrite an (epsilon-)existing keyframe,
else insert in sorted position. -/
def add_keyframe (tr : KeyframeTrack) (time value : ℚ) : KeyframeTrack :=
  match tr.find_keyframe_index time with
  | some i => ⟨updateAt (fun kf => { kf with value := value }) i tr.keyframes⟩
  | none => ⟨insortKeyframe ⟨time, value⟩ tr.keyframes⟩

/-- `remove_keyframe(time)`: delete the (epsilon-)matching keyframe, if any. -/
def remove_keyframe (tr : KeyframeTrack) (time : ℚ) : KeyframeTrack :=
  match tr.find_keyframe_index time with
  | some i => ⟨tr.keyframes.eraseIdx i⟩
  | none => tr

/-- `evaluate(time, interpolation='linear')` for the linear mode (the only
implemented one; other modes raise `NotImplementedError`). -/
def evaluate (tr : KeyframeTrack) (time : ℚ) : ℚ :=
  match tr.keyframes with
  | [] => 0
  | k0 :: rest =>
      let times := tr.keyframes.map (·.time)
      if time < k0.time then k0.value
      else if ((k0 :: rest).getLast (by simp)).time ≤ time then
        ((k0 :: rest).getLast (by simp)).value
      else
        let right_index := bisectRight times time
        let left_index := right_index - 1
        let left_kf := tr.keyframes.getD left_index ⟨0, 0⟩
        let right_kf := tr.keyframes.getD right_index ⟨0, 0⟩
        npInterp time left_kf.time right_kf.time left_kf.value right_kf.value

/-- `get_keyframes_in_range(start, end)`: inclusive on both ends. -/
def get_keyframes_in_range (tr : KeyframeTrack) (s e : ℚ) : List Keyframe :=
  tr.keyframes.filter (fun kf => decide (s ≤ kf.time) && decide (kf.time ≤ e))

/-- Fold a list of `(time, value)` insertions through `add_keyframe`,
starting from the empty track. -/
def ofAdds (ops : List (ℚ × ℚ)) : KeyframeTrack :=
  ops.foldl (fun tr p => tr.add_keyframe p.1 p.2) ⟨[]⟩

end KeyframeTrack

/-! ## `src/ui/timeline_widget.py` -/

namespace Widget

/-- `TimelineClip.__init__` state. `QColor` is modelled as an RGB triple and
the opaque thumbnail/waveform payloads as `Option ℕ` handles. -/
structure TimelineClip where
  clip_id : String
  name : String
  start_time : ℚ
  duration : ℚ
  track : ℤ
  clip_type : String
  color : ℕ × ℕ × ℕ
  selected : Bool
  thumbnail : Option ℕ
  waveform_data : Option ℕ
  has_audio : Bool
  has_video : Bool
  deriving DecidableEq, Repr

/-- `TimelineClip(clip_id, name, start_time, duration, track, clip_type)`. -/
def mkTimelineClip (clip_id name : String) (start_time duration : ℚ)
    (track : ℤ) (clip_type : String := "video") : TimelineClip :=
  { clip_id := clip_id
    name := name
    start_time := start_time
    duration := duration
    track := track
    clip_type := clip_type
    color := if clip_type = "video" then (70, 130, 180) else (50, 150, 50)
    selected := false
    thumbnail := none
    waveform_data := none
    has_audio := false
    has_video := clip_type ≠ "audio" }

namespace TimelineClip

/-- `end_time()`. -/
def end_time (c : TimelineClip) : ℚ := c.start_time + c.duration

/-- `contains_time(time)`: inclusive on both ends. -/
def contains_time (c : TimelineClip) (time : ℚ) : Bool :=
  decide (c.start_time ≤ time) && decide (time ≤ c.end_time)

end TimelineClip

/-- `AutomationTrack.__init__` state. The Python `dict` of keyframes is
modelled as an association list with pairwise-distinct keys (new keys are
appended, existing keys overwritten), observed only through `sorted(keys)`
and key lookups. -/
structure AutomationTrack where
  parent_track_id : ℤ
  parameter_name : String
  keyframes : List (ℚ × ℚ)
  enabled : Bool
  height : ℚ
  min_value : ℚ
  max_value : ℚ
  deriving DecidableEq, Repr

/-- `AutomationTrack(parent_track_id, parameter_name)`. -/
def mkAutomationTrack (pid : ℤ) (pname : String) : AutomationTrack :=
  { parent_track_id := pid
    parameter_name := pname
    keyframes := []
    enabled := false
    height := 40
    min_value := 0
    max_value := 1 }

/-- `self.keyframes[time] = v` on the dict model. -/
def dictSet (kfs : List (ℚ × ℚ)) (t v : ℚ) : List (ℚ × ℚ) :=
  if kfs.any (fun p => p.1 = t) then
    kfs.map (fun p => if p.1 = t then (t, v) else p)
  else kfs ++ [(t, v)]

/-- `self.keyframes[key]` on the dict model (callers only look up present
keys; a missing key yields the junk value `0`). -/
def dictGet (kfs : List (ℚ × ℚ)) (t : ℚ) : ℚ :=
  ((kfs.find? (fun p => p.1 = t)).map (·.2)).getD 0

namespace AutomationTrack

/-- `add_keyframe(time, value)`: store the value clamped into
`[min_value, max_value]`. -/
def add_keyframe (a : AutomationTrack) (time value : ℚ) : AutomationTrack :=
  { a with keyframes := dictSet a.keyframes time (max a.min_value (min a.max_value value)) }

/-- `remove_keyframe(time)`. -/
def remove_keyframe (a : AutomationTrack) (time : ℚ) : AutomationTrack :=
  { a with keyframes := a.keyframes.filter (fun p => p.1 ≠ time) }

/-- The interpolation loop of `get_value_at_time`: scan adjacent pairs of the
sorted key list; fall through to the default middle value. -/
def interpScan (a : AutomationTrack) (time : ℚ) : List ℚ → ℚ
  | t1 :: t2 :: rest =>
      if t1 ≤ time ∧ time ≤ t2 then
        let v1 := dictGet a.keyframes t1
        let v2 := dictGet a.keyframes t2
        v1 + (v2 - v1) * ((time - t1) / (t2 - t1))
      else interpScan a time (t2 :: rest)
  | _ => (a.min_value + a.max_value) / 2

/-- `get_value_at_time(time)`. -/
def get_value_at_time (a : AutomationTrack) (time : ℚ) : ℚ :=
  match a.keyframes with
  | [] => (a.min_value + a.max_value) / 2
  | _ :: _ =>
      let times := sortQ (a.keyframes.map (·.1))
      match times with
      | [] => (a.min_value + a.max_value) / 2
      | t0 :: ts =>
          if time ≤ t0 then dictGet a.keyframes t0
          else if ((t0 :: ts).getLast (by simp)) ≤ time then
            dictGet a.keyframes ((t0 :: ts).getLast (by simp))
          else interpScan a time (t0 :: ts)

end AutomationTrack

/-- `TimelineTrack.__init__` state. -/
structure TimelineTrack where
  track_id : ℤ
  name : String
  track_type : String
  clips : List TimelineClip
  muted : Bool
  locked : Bool
  solo : Bool
  height : ℚ
  automation_tracks : List AutomationTrack
  show_automation : Bool
  deriving DecidableEq, Repr

/-- `TimelineTrack(track_id, name, track_type)`, including the default
automation tracks it creates. -/
def mkTimelineTrack (track_id : ℤ) (name : String)
    (track_type : String := "video") : TimelineTrack :=
  { track_id := track_id
    name := name
    track_type := track_type
    clips := []
    muted := false
    locked := false
    solo := false
    height := if track_type = "video" then 60 else 40
    automation_tracks :=
      if track_type = "audio" then
        [mkAutomationTrack track_id "volume", mkAutomationTrack track_id "pan"]
      else if track_type = "video" then [mkAutomationTrack track_id "opacity"]
      else []
    show_automation := false }

/-- Stable insertion (`list.sort(key=lambda c: c.start_time)` step): insert
before the first clip with a strictly later or equal start. -/
def insortClip (c : TimelineClip) : List TimelineClip → List TimelineClip
  | [] => [c]
  | d :: ds =>
      if c.start_time ≤ d.start_time then c :: d :: ds else d :: insortClip c ds

/-- Python's stable `list.sort(key=lambda c: c.start_time)`. -/
def sortClips : List TimelineClip → List TimelineClip
  | [] => []
  | c :: cs => insortClip c (sortClips cs)

namespace TimelineTrack

/-- `get_clip_by_id(clip_id)`: first clip with the id. -/
def get_clip_by_id (tr : TimelineTrack) (cid : String) : Option TimelineClip :=
  tr.clips.find? (fun c => c.clip_id = cid)

/-- `add_clip(clip)`: append, then re-sort by `start_time`.  No lock check. -/
def add_clip (tr : TimelineTrack) (c : TimelineClip) : TimelineTrack :=
  { tr with clips := sortClips (tr.clips ++ [c]) }

/-- `move_clip(clip_id, new_start_time) -> bool`: mutates and re-sorts only
when the clip is found and the track is not locked. -/
def move_clip (tr : TimelineTrack) (cid : String) (new_start : ℚ) :
    Bool × TimelineTrack :=
  match tr.get_clip_by_id cid with
  | some _ =>
      if tr.locked then (false, tr)
      else
        (true,
          { tr with
            clips := sortClips (updateFirst (fun c => c.clip_id = cid)
              (fun c => { c with start_time := new_start }) tr.clips) })
  | none => (false, tr)

/-- `split_clip(clip_id, split_time)`: mutate the found clip into the left
half and insert a fresh right half, when `start_time < split_time <
end_time`; otherwise a `None` no-op.  No lock check. -/
def split_clip (tr : TimelineTrack) (cid : String) (split_time : ℚ) :
    Option (TimelineClip × TimelineClip) × TimelineTrack :=
  match tr.get_clip_by_id cid with
  | some clip =>
      if clip.start_time < split_time ∧ split_time < clip.end_time then
        let left_duration := split_time - clip.start_time
        let right_duration := clip.end_time - split_time
        let right :=
          { mkTimelineClip (cid ++ "_split") (clip.name ++ " (2)") split_time
              right_duration clip.track with
            color := clip.color }
        let left :=
          { clip with
            duration := left_duration
            name := if endsWithStr clip.name " (1)" then clip.name
                    else clip.name ++ " (1)" }
        let tr1 :=
          { tr with
            clips := updateFirst (fun c => c.clip_id = cid) (fun _ => left)
              tr.clips }
        (some (left, right), tr1.add_clip right)
      else (none, tr)
  | none => (none, tr)

/-- `remove_clip(clip_id)`: keep every clip with a different id.  No lock
check. -/
def remove_clip (tr : TimelineTrack) (cid : String) : TimelineTrack :=
  { tr with clips := tr.clips.filter (fun c => c.clip_id ≠ cid) }

/-- `get_clip_at_time(time)`: first clip containing `time`. -/
def get_clip_at_time (tr : TimelineTrack) (time : ℚ) : Option TimelineClip :=
  tr.clips.find? (fun c => c.contains_time time)

end TimelineTrack

end Widget

namespace Widget

/-- The model-relevant state of `TimelineWidget.__init__` (Qt widget and
painting state is out of scope). -/
structure TimelineWidget where
  tracks : List TimelineTrack
  pixels_per_second : ℚ
  scroll_offset : ℚ
  playhead_time : ℚ
  snap_enabled : Bool
  duration : ℚ
  deriving DecidableEq, Repr

/-- `create_default_tracks`: three video tracks (ids 0–2) and four audio
tracks (ids 10–13). -/
def create_default_tracks : List TimelineTrack :=
  [mkTimelineTrack 0 "Video 1" "video",
   mkTimelineTrack 1 "Video 2" "video",
   mkTimelineTrack 2 "Video 3" "video",
   mkTimelineTrack 10 "Audio 1" "audio",
   mkTimelineTrack 11 "Audio 2" "audio",
   mkTimelineTrack 12 "Audio 3" "audio",
   mkTimelineTrack 13 "Audio 4" "audio"]

/-- A fresh `TimelineWidget()`. -/
def mkTimelineWidget : TimelineWidget :=
  { tracks := create_default_tracks
    pixels_per_second := 50
    scroll_offset := 0
    playhead_time := 0
    snap_enabled := true
    duration := 60 }

namespace TimelineWidget

/-- `get_all_clips()`: concatenation of every track's clips. -/
def get_all_clips (w : TimelineWidget) : List TimelineClip :=
  (w.tracks.map (·.clips)).flatten

/-- `add_clip_to_track(track_id, clip_name, start_time, duration) -> str`:
id is `clip_{number of clips currently on the timeline}`; green color for
audio tracks; `""` for an out-of-range track index. -/
def add_clip_to_track (w : TimelineWidget) (track_id : ℕ) (clip_name : String)
    (start_time duration : ℚ) : String × TimelineWidget :=
  if h : track_id < w.tracks.length then
    let cid := "clip_" ++ toString w.get_all_clips.length
    let clip0 := mkTimelineClip cid clip_name start_time duration track_id
    let clip :=
      if (w.tracks.get ⟨track_id, h⟩).track_type = "audio" then
        { clip0 with color := (50, 150, 50) }
      else clip0
    (cid, { w with tracks := updateAt (·.add_clip clip) track_id w.tracks })
  else ("", w)

/-- `remove_clip(clip_id)` (widget level): remove from every track. -/
def remove_clip (w : TimelineWidget) (cid : String) : TimelineWidget :=
  { w with tracks := w.tracks.map (·.remove_clip cid) }

/-- `snap_threshold = 0.5 / self.pixels_per_second * 10`. -/
def snap_threshold (w : TimelineWidget) : ℚ :=
  1/2 / w.pixels_per_second * 10

/-- The skip test of the clip loop in `snap_time`: the dragged clip itself
(matched by id) contributes no candidates. -/
def skipsDragging (dragging : Option TimelineClip) (c : TimelineClip) : Bool :=
  match dragging with
  | some d => c.clip_id = d.clip_id
  | none => false

/-- All snap targets `snap_time` considers, before the threshold filter:
the (round-half-even) nearest grid second, the playhead, and the start/end
of every clip other than the dragged one, in loop order. -/
def snapTargets (w : TimelineWidget) (time : ℚ)
    (dragging : Option TimelineClip) : List ℚ :=
  [pyRound time, w.playhead_time] ++
    (w.tracks.map (fun tr =>
      (tr.clips.map (fun c =>
        if skipsDragging dragging c then []
        else [c.start_time, c.end_time])).flatten)).flatten

/-- The `candidates` list built by `snap_time`: the targets that survive the
strict threshold test, in the order the code appends them. -/
def snapCandidates (w : TimelineWidget) (time : ℚ)
    (dragging : Option TimelineClip) : List ℚ :=
  (if |time - pyRound time| < w.snap_threshold then [pyRound time] else []) ++
  (if |time - w.playhead_time| < w.snap_threshold then [w.playhead_time]
   else []) ++
  (w.tracks.map (fun tr =>
    (tr.clips.map (fun c =>
      if skipsDragging dragging c then []
      else
        (if |time - c.start_time| < w.snap_threshold then [c.start_time]
         else []) ++
        (if |time - c.end_time| < w.snap_threshold then [c.end_time]
         else []))).flatten)).flatten

/-- `snap_time(time, dragging_clip)`. -/
def snap_time (w : TimelineWidget) (time : ℚ)
    (dragging : Option TimelineClip) : ℚ :=
  if ¬ w.snap_enabled then time
  else
    match w.snapCandidates time dragging with
    | [] => time
    | c :: cs => pyMinAbs time c cs

/-- `move_clip_to_track(clip, new_track_id)`: validates only
`new_track_id >= len(self.tracks)`, then removes the clip from the first
track containing it and adds it (with its `track` field updated) to
`self.tracks[new_track_id]` — a Python indexing that wraps negative ids and
raises `IndexError`, after the removal, for ids below `-len`. -/
def move_clip_to_track (w : TimelineWidget) (clip : TimelineClip)
    (new_track_id : ℤ) : Except PyErr Bool × TimelineWidget :=
  if (w.tracks.length : ℤ) ≤ new_track_id then (.ok false, w)
  else
    match w.tracks.findIdx? (fun tr => tr.clips.any (fun c => c = clip)) with
    | none => (.ok false, w)
    | some ci =>
        let w1 :=
          { w with tracks := updateAt (·.remove_clip clip.clip_id) ci w.tracks }
        match pyIndex w1.tracks.length new_track_id with
        | none => (.error .indexError, w1)
        | some ti =>
            let clip2 := { clip with track := new_track_id }
            (.ok true,
              { w1 with tracks := updateAt (·.add_clip clip2) ti w1.tracks })

end TimelineWidget

end Widget

/-! ## `src/core/timeline.py` -/

namespace Core

/-- A MoviePy media clip, as far as `Timeline` observes it: an intrinsic
`duration` and whether it has an `fps` attribute (video vs audio). -/
structure MediaClip where
  duration : ℚ
  hasFps : Bool
  deriving DecidableEq, Repr

/-- `TimelineClip.__init__` (core variant).  `uuid.uuid4()` is modelled by a
fresh counter carried in the `Timeline` state; the `AnimationManager` field
is omitted (none of the operations below observe it). -/
structure TimelineClip where
  id : ℕ
  clip : MediaClip
  start_time : ℚ
  track : ℕ
  duration : ℚ
  end_time : ℚ
  selected : Bool
  deriving DecidableEq, Repr

/-- `Track.__init__`.  For the two `track_type` values that occur,
`track_type.title()` is `"Video"` / `"Audio"`. -/
structure Track where
  clips : List TimelineClip
  locked : Bool
  muted : Bool
  solo : Bool
  name : String
  track_type : String
  height : ℚ
  color : String
  deriving DecidableEq, Repr

def mkTrack (track_type : String := "video") : Track :=
  { clips := []
    locked := false
    muted := false
    solo := false
    name := (if track_type = "video" then "Video" else "Audio") ++ " Track"
    track_type := track_type
    height := 60
    color := if track_type = "video" then "#4CAF50" else "#2196F3" }

/-- `Timeline.__init__` state (plus the uuid counter `nextId`). -/
structure Timeline where
  clips : List TimelineClip
  video_tracks : List Track
  audio_tracks : List Track
  current_time : ℚ
  zoom_level : ℚ
  selected_clips : List ℕ
  snapping_enabled : Bool
  snap_threshold : ℚ
  ripple_mode : Bool
  magnetic_timeline : Bool
  nextId : ℕ
  deriving DecidableEq, Repr

/-- `Timeline()`. -/
def mkTimeline : Timeline :=
  { clips := []
    video_tracks := []
    audio_tracks := []
    current_time := 0
    zoom_level := 1
    selected_clips := []
    snapping_enabled := true
    snap_threshold := 1/10
    ripple_mode := false
    magnetic_timeline := true
    nextId := 0 }

namespace Timeline

/-- `get_tracks(track_type)`. -/
def get_tracks (tl : Timeline) (track_type : String) : List Track :=
  if track_type = "video" then tl.video_tracks else tl.audio_tracks

/-- Write back the track list that `get_tracks` aliases. -/
def set_tracks (tl : Timeline) (track_type : String) (ts : List Track) :
    Timeline :=
  if track_type = "video" then { tl with video_tracks := ts }
  else { tl with audio_tracks := ts }

/-- `ensure_track_exists(track_type, track_index)`: append default tracks
until the index exists. -/
def ensure_track_exists (tl : Timeline) (track_type : String)
    (track_index : ℕ) : Timeline :=
  let ts := tl.get_tracks track_type
  tl.set_tracks track_type
    (ts ++ List.replicate (track_index + 1 - ts.length) (mkTrack track_type))

/-- `is_track_locked(track_type, track_index)`: `False` for an absent
index. -/
def is_track_locked (tl : Timeline) (track_type : String)
    (track_index : ℕ) : Bool :=
  match (tl.get_tracks track_type).get? track_index with
  | some tr => tr.locked
  | none => false

/-- `lock_track(track_type, track_index)`. -/
def lock_track (tl : Timeline) (track_type : String) (track_index : ℕ) :
    Timeline :=
  let tl1 := tl.ensure_track_exists track_type track_index
  tl1.set_tracks track_type
    (updateAt (fun tr => { tr with locked := true }) track_index
      (tl1.get_tracks track_type))

/-- `get_snap_positions()`: `sorted(set([0.0] + all clip starts/ends))`. -/
def get_snap_positions (tl : Timeline) : List ℚ :=
  sortQ (((0 : ℚ) :: (tl.clips.map (fun c => [c.start_time, c.end_time])).flatten).dedup)

/-- `get_nearest_snap_position(time)`. -/
def get_nearest_snap_position (tl : Timeline) (time : ℚ) : ℚ :=
  if ¬ tl.snapping_enabled then time
  else
    match tl.get_snap_positions with
    | [] => time
    | p :: ps =>
        let closest := pyMinAbs time p ps
        if |closest - time| ≤ tl.snap_threshold then closest else time

/-- `get_clip_by_id(clip_id)`. -/
def get_clip_by_id (tl : Timeline) (cid : ℕ) : Option TimelineClip :=
  tl.clips.find? (fun c => c.id = cid)

/-- `add_clip(clip, start_time, track) -> str`: raises `ValueError` when the
target track is locked; otherwise ensures the track exists, snaps the start
time when snapping is enabled, and appends the new clip to both `clips` and
the track. -/
def add_clip (tl : Timeline) (clip : MediaClip) (start_time : ℚ)
    (track : ℕ) : Except PyErr ℕ × Timeline :=
  let track_type := if clip.hasFps then "video" else "audio"
  if tl.is_track_locked track_type track then (.error .valueError, tl)
  else
    let tl1 := tl.ensure_track_exists track_type track
    let st :=
      if tl1.snapping_enabled then tl1.get_nearest_snap_position start_time
      else start_time
    let c : TimelineClip :=
      { id := tl1.nextId
        clip := clip
        start_time := st
        track := track
        duration := clip.duration
        end_time := st + clip.duration
        selected := false }
    let tl2 := { tl1 with clips := tl1.clips ++ [c], nextId := tl1.nextId + 1 }
    let tl3 := tl2.set_tracks track_type
      (updateAt (fun tr => { tr with clips := tr.clips ++ [c] }) track
        (tl2.get_tracks track_type))
    (.ok c.id, tl3)

/-- `remove_clip(clip_id) -> bool`: an unknown id returns `False`; a known
id removes the clip from `self.clips` and then evaluates `self.tracks`,
an attribute `Timeline` does not define — `AttributeError` escapes with the
partial mutation already applied. -/
def remove_clip (tl : Timeline) (cid : ℕ) : Except PyErr Bool × Timeline :=
  match tl.get_clip_by_id cid with
  | none => (.ok false, tl)
  | some c => (.error .attributeError, { tl with clips := removeFirst c tl.clips })

/-- `move_clip(clip_id, new_start_time, new_track)`: an unknown id returns
`False`; a known id evaluates `len(self.tracks[track_type])` before any
mutation and raises `AttributeError`. -/
def move_clip (tl : Timeline) (cid : ℕ) (new_start_time : ℚ)
    (new_track : Option ℕ) : Except PyErr Bool × Timeline :=
  match tl.get_clip_by_id cid with
  | none => (.ok false, tl)
  | some _ => (.error .attributeError, tl)

/-- `split_clip(clip_id, split_time)`: unknown id or a split time outside
the open interval returns `(None, None)` unchanged; otherwise the `try`
block calls `self.remove_clip`, whose `AttributeError` (raised after the
clip has been dropped from `self.clips`) is swallowed by the bare `except`,
returning `(None, None)` with the partial mutation kept. -/
def split_clip (tl : Timeline) (cid : ℕ) (split_time : ℚ) :
    (Option ℕ × Option ℕ) × Timeline :=
  match tl.get_clip_by_id cid with
  | none => ((none, none), tl)
  | some clip =>
      let rel := split_time - clip.start_time
      if rel ≤ 0 ∨ clip.duration ≤ rel then ((none, none), tl)
      else ((none, none), { tl with clips := removeFirst clip tl.clips })

/-- `get_clips_at_time(time)`: inclusive on both ends. -/
def get_clips_at_time (tl : Timeline) (time : ℚ) : List TimelineClip :=
  tl.clips.filter (fun c =>
    decide (c.start_time ≤ time) && decide (time ≤ c.end_time))

end Timeline

end Core

/-! ## General lemmas about the helpers -/

theorem updateAt_get? {α : Type} (f : α → α) (i j : ℕ) (l : List α) :
    (updateAt f i l).get? j = if i = j then (l.get? j).map f else l.get? j := by
  induction l generalizing i j with
  | nil => simp [updateAt]
  | cons x xs ih =>
      cases i with
      | zero =>
          cases j with
          | zero => simp [updateAt]
          | succ j => simp [updateAt]
      | succ i =>
          cases j with
          | zero => simp [updateAt]
          | succ j => simpa [updateAt] using ih i j

theorem removeFirst_length {α : Type} [DecidableEq α] {x : α} {l : List α}
    (hx : x ∈ l) : (removeFirst x l).length + 1 = l.length := by
  induction l with
  | nil => cases hx
  | cons y ys ih =>
      by_cases hyx : y = x
      · simp [removeFirst, hyx]
      · have : x ∈ ys := by
          rcases List.mem_cons.1 hx with h | h
          · exact absurd h.symm hyx
          · exact h
        simp [removeFirst, hyx, ih this]

theorem updateFirst_mem {α : Type} (p : α → Bool) (f : α → α) {l : List α}
    {x : α} (hx : x ∈ l) (hp : p x = true) :
    ∃ y ∈ l, p y = true ∧ f y ∈ updateFirst p f l := by
  induction l with
  | nil => cases hx
  | cons z zs ih =>
      by_cases hz : p z = true
      · exact ⟨z, List.mem_cons_self z zs, hz, by simp [updateFirst, hz]⟩
      · have hxz : x ∈ zs := by
          rcases List.mem_cons.1 hx with h | h
          · exact absurd (h ▸ hp) hz
          · exact h
        rcases ih hxz with ⟨y, hyl, hpy, hyu⟩
        exact ⟨y, List.mem_cons_of_mem z hyl, hpy,
          by simp [updateFirst, hz, hyu]⟩

theorem pyMinAbs_spec (t : ℚ) (c : ℚ) (cs : List ℚ) :
    pyMinAbs t c cs ∈ c :: cs ∧
      ∀ x ∈ c :: cs, |pyMinAbs t c cs - t| ≤ |x - t| := by
  induction cs generalizing c with
  | nil => exact ⟨List.mem_singleton.2 rfl, by simp [pyMinAbs]⟩
  | cons d ds ih =>
      have hstep : pyMinAbs t c (d :: ds) =
          pyMinAbs t (if |d - t| < |c - t| then d else c) ds := by
        simp [pyMinAbs, List.foldl_cons]
      by_cases hdc : |d - t| < |c - t|
      · rcases ih d with ⟨hmem, hmin⟩
        have hres : pyMinAbs t c (d :: ds) = pyMinAbs t d ds := by
          rw [hstep, if_pos hdc]
        constructor
        · rw [hres]
          exact List.mem_cons_of_mem c hmem
        · intro x hx
          rw [hres]
          rcases List.mem_cons.1 hx with h | hx
          · exact h ▸ ((hmin d (List.mem_cons_self d ds)).trans hdc.le)
          · exact hmin x hx
      · rcases ih c with ⟨hmem, hmin⟩
        have hres : pyMinAbs t c (d :: ds) = pyMinAbs t c ds := by
          rw [hstep, if_neg hdc]
        constructor
        · rw [hres]
          rcases List.mem_cons.1 hmem with h | h
          · rw [h]; exact List.mem_cons_self _ _
          · exact List.mem_cons_of_mem _ (List.mem_cons_of_mem d h)
        · intro x hx
          rw [hres]
          rcases List.mem_cons.1 hx with h | hx
          · exact h ▸ hmin c (List.mem_cons_self c ds)
          · rcases List.mem_cons.1 hx with h | hx
            · exact h ▸ ((hmin c (List.mem_cons_self c ds)).trans (not_lt.1 hdc))
            · exact hmin x (List.mem_cons_of_mem c hx)

namespace Widget

theorem insortClip_perm (c : TimelineClip) (m : List TimelineClip) :
    (insortClip c m).Perm (c :: m) := by
  induction m with
  | nil => simp [insortClip]
  | cons d ds ih =>
      by_cases h : c.start_time ≤ d.start_time
      · simp [insortClip, h]
      · simp only [insortClip, h, if_false]
        exact ((ih.cons d).trans (List.Perm.swap c d ds))

theorem sortClips_perm (l : List TimelineClip) : (sortClips l).Perm l := by
  induction l with
  | nil => simp [sortClips]
  | cons c cs ih => exact (insortClip_perm c (sortClips cs)).trans (ih.cons c)

theorem mem_sortClips {c : TimelineClip} {l : List TimelineClip} :
    c ∈ sortClips l ↔ c ∈ l := (sortClips_perm l).mem_iff

end Widget

/-! ## String helper lemmas -/

theorem endsWithStr_append (s t : String) : endsWithStr (s ++ t) t = true := by
  simp [endsWithStr, String.data_append, List.isSuffixOf_iff_suffix]

theorem append_ne_of_ne_empty (s t : String) (ht : t.length ≠ 0) :
    s ++ t ≠ s := by
  intro h
  have := congrArg String.length h
  rw [String.length_append] at this
  omega

/-! ## Concrete fixtures used by witnesses and counterexamples -/

/-- A video track holding one ten-second clip starting at 0. -/
def sampleClip : Widget.TimelineClip :=
  Widget.mkTimelineClip "a" "Clip" 0 10 0

def sampleTrack : Widget.TimelineTrack :=
  (Widget.mkTimelineTrack 0 "V" "video").add_clip sampleClip

/-- The same track with the `locked` flag raised. -/
def lockedTrack : Widget.TimelineTrack :=
  { sampleTrack with locked := true }

/-! ## C10 -/

/-- C10: an `AutomationTrack` with no keyframes answers the midpoint
`(min_value + max_value) / 2` at every time (`0.5` for the constructed
`[0, 1]` range), unlike `KeyframeTrack.evaluate`, which answers `0.0` on an
empty track. -/
theorem claim_C10 (a : Widget.AutomationTrack) (ha : a.keyframes = [])
    (k : KeyframeTrack) (hk : k.keyframes = []) (pid : ℤ) (pname : String)
    (t : ℚ) :
    a.get_value_at_time t = (a.min_value + a.max_value) / 2 ∧
    (Widget.mkAutomationTrack pid pname).get_value_at_time t = 1/2 ∧
    k.evaluate t = 0 := by
  refine ⟨?_, ?_, ?_⟩
  · simp [Widget.AutomationTrack.get_value_at_time, ha]
  · norm_num [Widget.AutomationTrack.get_value_at_time,
      Widget.mkAutomationTrack]
  · simp [KeyframeTrack.evaluate, hk]

/-- Witness for C10 at a concrete empty automation track and keyframe
track. -/
theorem claim_C10_witness :
    (Widget.mkAutomationTrack 3 "volume").keyframes = [] ∧
    (⟨[]⟩ : KeyframeTrack).keyframes = [] ∧
    ((Widget.mkAutomationTrack 3 "volume").get_value_at_time 7 =
        ((Widget.mkAutomationTrack 3 "volume").min_value +
          (Widget.mkAutomationTrack 3 "volume").max_value) / 2 ∧
      (Widget.mkAutomationTrack 0 "pan").get_value_at_time 7 = 1/2 ∧
      (⟨[]⟩ : KeyframeTrack).evaluate 7 = 0) :=
  ⟨rfl, rfl, claim_C10 (Widget.mkAutomationTrack 3 "volume") rfl ⟨[]⟩ rfl
    0 "pan" 7⟩

/-! ## C2 -/

/-- C2 counterexample: on a locked `TimelineTrack`, `add_clip` changes the
clip list (the lock is not checked), contradicting the claim that every
mutating operation leaves a locked track unchanged. -/
theorem claim_C2_counterexample :
    lockedTrack.locked = true ∧
    (lockedTrack.add_clip (Widget.mkTimelineClip "b" "Other" 20 5 0)).clips ≠
      lockedTrack.clips := by
  refine ⟨rfl, ?_⟩
  decide

/-- C2 amended: of the four mutating operations only `move_clip` honours the
`locked` flag (returning `false` and leaving the track unchanged); `add_clip`,
`split_clip` and `remove_clip` behave on a locked track exactly as on the
same track unlocked. -/
theorem claim_C2_amended (tr : Widget.TimelineTrack) (h : tr.locked = true) :
    (∀ cid ns, tr.move_clip cid ns = (false, tr)) ∧
    (∀ c, ({ tr with locked := false }).add_clip c =
      { tr.add_clip c with locked := false }) ∧
    (∀ cid st,
      (({ tr with locked := false }).split_clip cid st).1 =
          (tr.split_clip cid st).1 ∧
      (({ tr with locked := false }).split_clip cid st).2 =
          { (tr.split_clip cid st).2 with locked := false }) ∧
    (∀ cid, ({ tr with locked := false }).remove_clip cid =
      { tr.remove_clip cid with locked := false }) := by
  refine ⟨?_, ?_, ?_, ?_⟩
  · intro cid ns
    cases hf : tr.get_clip_by_id cid <;>
      simp [Widget.TimelineTrack.move_clip, hf, h]
  · intro c
    rfl
  · intro cid st
    have hg : ({ tr with locked := false } :
        Widget.TimelineTrack).get_clip_by_id cid = tr.get_clip_by_id cid := rfl
    cases hf : tr.get_clip_by_id cid with
    | none =>
        constructor <;>
          simp [Widget.TimelineTrack.split_clip, hg, hf]
    | some clip =>
        by_cases hc : clip.start_time < st ∧ st < clip.end_time
        · constructor <;>
            simp [Widget.TimelineTrack.split_clip, hg, hf, hc,
              Widget.TimelineTrack.add_clip]
        · constructor <;>
            simp [Widget.TimelineTrack.split_clip, hg, hf, hc]
  · intro cid
    rfl

/-- Witness for C2 (amended) at the concrete locked track. -/
theorem claim_C2_amended_witness :
    lockedTrack.locked = true ∧
    lockedTrack.move_clip "a" 3 = (false, lockedTrack) :=
  ⟨rfl, (claim_C2_amended lockedTrack rfl).1 "a" 3⟩

/-! ## C9 -/

/-- C9: `TimelineTrack.split_clip` builds the right half through the
`TimelineClip` constructor without passing `clip_type`, so it defaults to
`"video"` (with `has_video` true, `has_audio` false, thumbnail and waveform
reset to `None`, and only the color copied over), while the left half — the
original object — keeps the original type and media fields. -/
theorem claim_C9 (tr : Widget.TimelineTrack) (cid : String) (st : ℚ)
    (c : Widget.TimelineClip) (hfind : tr.get_clip_by_id cid = some c)
    (htype : c.clip_type = "audio" ∨ c.clip_type = "both")
    (h1 : c.start_time < st) (h2 : st < c.end_time) :
    ∃ l r tr', tr.split_clip cid st = (some (l, r), tr') ∧
      r.clip_type = "video" ∧ r.has_video = true ∧ r.has_audio = false ∧
      r.thumbnail = none ∧ r.waveform_data = none ∧ r.color = c.color ∧
      r.clip_type ≠ c.clip_type ∧
      l.clip_type = c.clip_type ∧ l.thumbnail = c.thumbnail ∧
      l.waveform_data = c.waveform_data ∧ l.has_audio = c.has_audio ∧
      l.has_video = c.has_video := by
  simp only [Widget.TimelineTrack.split_clip, hfind]
  rw [if_pos ⟨h1, h2⟩]
  refine ⟨_, _, _, rfl, rfl, rfl, rfl, rfl, rfl, rfl, ?_, rfl, rfl, rfl,
    rfl, rfl⟩
  rcases htype with h | h <;> simp [Widget.mkTimelineClip, h]

/-- Witness for C9: splitting a concrete audio clip at time 4. -/
theorem claim_C9_witness :
    ((Widget.mkTimelineTrack 1 "A" "audio").add_clip
        (Widget.mkTimelineClip "x" "Song" 0 10 1 "audio")).get_clip_by_id "x" =
      some (Widget.mkTimelineClip "x" "Song" 0 10 1 "audio") ∧
    ∃ l r tr',
      ((Widget.mkTimelineTrack 1 "A" "audio").add_clip
          (Widget.mkTimelineClip "x" "Song" 0 10 1 "audio")).split_clip "x" 4 =
        (some (l, r), tr') ∧
      r.clip_type = "video" ∧ r.has_video = true ∧ r.has_audio = false ∧
      r.thumbnail = none ∧ r.waveform_data = none ∧
      r.color = (Widget.mkTimelineClip "x" "Song" 0 10 1 "audio").color ∧
      r.clip_type ≠ (Widget.mkTimelineClip "x" "Song" 0 10 1 "audio").clip_type ∧
      l.clip_type = (Widget.mkTimelineClip "x" "Song" 0 10 1 "audio").clip_type ∧
      l.thumbnail = (Widget.mkTimelineClip "x" "Song" 0 10 1 "audio").thumbnail ∧
      l.waveform_data =
        (Widget.mkTimelineClip "x" "Song" 0 10 1 "audio").waveform_data ∧
      l.has_audio = (Widget.mkTimelineClip "x" "Song" 0 10 1 "audio").has_audio ∧
      l.has_video = (Widget.mkTimelineClip "x" "Song" 0 10 1 "audio").has_video :=
  ⟨by decide,
    claim_C9 _ "x" 4 _ (by decide) (Or.inl rfl)
      (by norm_num [Widget.mkTimelineClip])
      (by norm_num [Widget.mkTimelineClip, Widget.TimelineClip.end_time])⟩

/-! ## C4 -/

/-- C4: given that `get_clip_by_id` resolves `clip_id` to clip `c`,
`split_clip(clip_id, split_time)` succeeds exactly when
`start_time < split_time < end_time`; on success the left half is the
original clip (same id, same start) renamed with the `" (1)"` suffix and
the right half carries a fresh id (`clip_id ++ "_split"`) starting at
`split_time`; the durations sum exactly to the original duration, the
combined span equals the original span, and both halves are on the track;
outside the open interval the call is a `none` no-op. -/
theorem claim_C4 (tr : Widget.TimelineTrack) (cid : String) (st : ℚ)
    (c : Widget.TimelineClip) (hfind : tr.get_clip_by_id cid = some c) :
    (¬(c.start_time < st ∧ st < c.end_time) →
        tr.split_clip cid st = (none, tr)) ∧
    ((c.start_time < st ∧ st < c.end_time) →
      ∃ l r, (tr.split_clip cid st).1 = some (l, r) ∧
        l.clip_id = c.clip_id ∧ l.start_time = c.start_time ∧
        endsWithStr l.name " (1)" = true ∧
        r.clip_id = c.clip_id ++ "_split" ∧ r.clip_id ≠ c.clip_id ∧
        r.start_time = st ∧
        l.duration + r.duration = c.duration ∧
        r.end_time = c.end_time ∧
        l ∈ ((tr.split_clip cid st).2).clips ∧
        r ∈ ((tr.split_clip cid st).2).clips) := by
  have hf' : tr.clips.find? (fun d => decide (d.clip_id = cid)) = some c :=
    hfind
  have hpc := List.find?_some hf'
  have hcid : c.clip_id = cid := by simpa using hpc
  have hmemc : c ∈ tr.clips := List.mem_of_find?_eq_some hf'
  constructor
  · intro hc
    simp only [Widget.TimelineTrack.split_clip, hfind]
    rw [if_neg hc]
  · intro hc
    simp only [Widget.TimelineTrack.split_clip, hfind]
    rw [if_pos hc]
    refine ⟨_, _, rfl, rfl, rfl, ?_, hcid ▸ rfl, ?_, rfl, ?_, ?_, ?_, ?_⟩
    · by_cases hn : endsWithStr c.name " (1)" = true
      · simp [hn]
      · simp only [hn, Bool.false_eq_true, if_false]
        exact endsWithStr_append c.name " (1)"
    · rw [hcid]
      exact append_ne_of_ne_empty cid "_split" (by decide)
    · simp [Widget.TimelineClip.end_time, Widget.mkTimelineClip]
    · simp [Widget.TimelineClip.end_time, Widget.mkTimelineClip]
    · simp only [Widget.TimelineTrack.add_clip]
      rw [Widget.mem_sortClips]
      refine List.mem_append_left _ ?_
      rcases updateFirst_mem (fun d => d.clip_id = cid)
          (fun _ => _) hmemc (by simp [hcid]) with ⟨y, _, _, hy⟩
      exact hy
    · simp only [Widget.TimelineTrack.add_clip]
      rw [Widget.mem_sortClips]
      exact List.mem_append_right _ (List.mem_singleton.2 rfl)

/-- Witness for C4: the ten-second clip `"a"` on the sample track — split at
20 is a no-op failure, split at 4 succeeds with all the stated
properties. -/
theorem claim_C4_witness :
    sampleTrack.get_clip_by_id "a" = some sampleClip ∧
    sampleTrack.split_clip "a" 20 = (none, sampleTrack) ∧
    ∃ l r, (sampleTrack.split_clip "a" 4).1 = some (l, r) ∧
      l.clip_id = sampleClip.clip_id ∧ l.start_time = sampleClip.start_time ∧
      endsWithStr l.name " (1)" = true ∧
      r.clip_id = sampleClip.clip_id ++ "_split" ∧
      r.clip_id ≠ sampleClip.clip_id ∧
      r.start_time = 4 ∧
      l.duration + r.duration = sampleClip.duration ∧
      r.end_time = sampleClip.end_time ∧
      l ∈ ((sampleTrack.split_clip "a" 4).2).clips ∧
      r ∈ ((sampleTrack.split_clip "a" 4).2).clips :=
  ⟨by decide,
    (claim_C4 sampleTrack "a" 20 sampleClip (by decide)).1
      (by norm_num [sampleClip, Widget.mkTimelineClip,
        Widget.TimelineClip.end_time]),
    (claim_C4 sampleTrack "a" 4 sampleClip (by decide)).2
      ⟨by norm_num [sampleClip, Widget.mkTimelineClip],
        by norm_num [sampleClip, Widget.mkTimelineClip,
          Widget.TimelineClip.end_time]⟩⟩

theorem updateAt_length {α : Type} (f : α → α) (i : ℕ) (l : List α) :
    (updateAt f i l).length = l.length := by
  induction l generalizing i with
  | nil => simp [updateAt]
  | cons x xs ih =>
      cases i with
      | zero => simp [updateAt]
      | succ i => simp [updateAt, ih]

/-! ## C3 -/

/-- The widget after adding clips `"A"` and `"B"` to track 0 (ids `clip_0`
and `clip_1`). -/
def c3_w2 : Widget.TimelineWidget :=
  ((Widget.mkTimelineWidget.add_clip_to_track 0 "A" 0 4).2.add_clip_to_track
    0 "B" 10 4).2

/-- … then removing `clip_0`. -/
def c3_w3 : Widget.TimelineWidget := c3_w2.remove_clip "clip_0"

/-- C3: clip ids are not unique.  `add_clip_to_track` derives the new id from
the current clip count, so after add (`clip_0`), add (`clip_1`), remove
(`clip_0`), the next add reuses `clip_1` and the timeline holds two distinct
clips with the same id. -/
theorem claim_C3_bug :
    (c3_w2.get_all_clips.map (·.clip_id)) = ["clip_0", "clip_1"] ∧
    (c3_w3.add_clip_to_track 0 "C" 20 4).1 = "clip_1" ∧
    ((c3_w3.add_clip_to_track 0 "C" 20 4).2.get_all_clips.filter
        (fun c => decide (c.clip_id = "clip_1"))).length = 2 := by
  refine ⟨?_, ?_, ?_⟩ <;> decide

instance {e a : Type} [DecidableEq e] [DecidableEq a] :
    DecidableEq (Except e a) := fun x y =>
  match x, y with
  | .ok u, .ok v => decidable_of_iff (u = v) (by simp)
  | .ok _, .error _ => isFalse (by simp)
  | .error _, .ok _ => isFalse (by simp)
  | .error u, .error v => decidable_of_iff (u = v) (by simp)

/-! ## C6 -/

/-- A default widget with one five-second clip `clip_0` on track 0. -/
def c6_w : Widget.TimelineWidget :=
  (Widget.mkTimelineWidget.add_clip_to_track 0 "A" 0 5).2

def c6_clip : Widget.TimelineClip := Widget.mkTimelineClip "clip_0" "A" 0 5 0

/-- C6 counterexample: with 7 tracks, target id `-8` is not an existing
track index, yet the call neither returns `False` nor leaves the clip in
place — it raises `IndexError` after removing the clip from its source
track, so the clip is gone from every track. -/
theorem claim_C6_counterexample :
    (c6_w.move_clip_to_track c6_clip (-8)).1 = .error .indexError ∧
    ∀ tr ∈ (c6_w.move_clip_to_track c6_clip (-8)).2.tracks,
      c6_clip ∉ tr.clips := by
  refine ⟨?_, ?_⟩ <;> decide

/-- C6 amended: restricted to non-negative target ids,
`move_clip_to_track` is atomic — a target id at or beyond the track count,
or a clip contained in no track, returns `False` with the widget unchanged;
a valid target id with the clip found in track `ci` returns `True`, removes
the clip from track `ci` (when the target differs from it) and adds a copy
to the target track with the `track` field set to the target id and the
timing fields unchanged.  (Negative ids escape the validation: ids in
`[-len, -1]` wrap Python-style, ids below `-len` raise `IndexError` after
the removal.) -/
theorem claim_C6_amended (w : Widget.TimelineWidget)
    (clip : Widget.TimelineClip) (tid : ℤ) (h0 : 0 ≤ tid) :
    ((w.tracks.length : ℤ) ≤ tid →
        w.move_clip_to_track clip tid = (.ok false, w)) ∧
    (w.tracks.findIdx? (fun tr => tr.clips.any (fun c => c = clip)) = none →
        w.move_clip_to_track clip tid = (.ok false, w)) ∧
    (∀ ci, tid < (w.tracks.length : ℤ) →
      w.tracks.findIdx? (fun tr => tr.clips.any (fun c => c = clip)) =
          some ci →
      (w.move_clip_to_track clip tid).1 = .ok true ∧
      (ci ≠ tid.toNat →
        ∀ trSrc,
          (w.move_clip_to_track clip tid).2.tracks.get? ci = some trSrc →
          clip ∉ trSrc.clips) ∧
      (∀ trTgt,
        (w.move_clip_to_track clip tid).2.tracks.get? tid.toNat =
            some trTgt →
        ∃ c', c' ∈ trTgt.clips ∧ c'.clip_id = clip.clip_id ∧
          c'.start_time = clip.start_time ∧ c'.duration = clip.duration ∧
          c'.track = tid)) := by
  refine ⟨?_, ?_, ?_⟩
  · intro hlen
    simp only [Widget.TimelineWidget.move_clip_to_track]
    rw [if_pos hlen]
  · intro hf
    by_cases hlen : (w.tracks.length : ℤ) ≤ tid
    · simp only [Widget.TimelineWidget.move_clip_to_track]
      rw [if_pos hlen]
    · simp only [Widget.TimelineWidget.move_clip_to_track, hf]
      rw [if_neg hlen]
  · intro ci hlt hfi
    have hnle : ¬ ((w.tracks.length : ℤ) ≤ tid) := not_le.2 hlt
    have hpy :
        pyIndex (updateAt (·.remove_clip clip.clip_id) ci w.tracks).length
          tid = some tid.toNat := by
      rw [updateAt_length]
      unfold pyIndex
      rw [if_pos ⟨h0, hlt⟩]
    have hres1 : (w.move_clip_to_track clip tid).1 = .ok true := by
      simp only [Widget.TimelineWidget.move_clip_to_track, hfi, hpy]
      rw [if_neg hnle]
    have hres2 : (w.move_clip_to_track clip tid).2.tracks =
        updateAt (fun tr => tr.add_clip { clip with track := tid }) tid.toNat
          (updateAt (fun tr => tr.remove_clip clip.clip_id) ci w.tracks) := by
      simp only [Widget.TimelineWidget.move_clip_to_track, hfi, hpy]
      rw [if_neg hnle]
    refine ⟨hres1, ?_, ?_⟩
    · intro hne trSrc hsrc
      rw [hres2] at hsrc
      simp only [updateAt_get?] at hsrc
      rw [if_neg (fun h => hne h.symm)] at hsrc
      rw [if_pos trivial] at hsrc
      rcases Option.map_eq_some'.1 hsrc with ⟨u, _, hu⟩
      intro hmem
      rw [← hu] at hmem
      simp only [Widget.TimelineTrack.remove_clip, List.mem_filter] at hmem
      simp at hmem
    · intro trTgt htg
      rw [hres2] at htg
      simp only [updateAt_get?] at htg
      rw [if_pos trivial] at htg
      rcases Option.map_eq_some'.1 htg with ⟨u, _, hu⟩
      refine ⟨{ clip with track := tid }, ?_, rfl, rfl, rfl, rfl⟩
      rw [← hu]
      simp only [Widget.TimelineTrack.add_clip]
      rw [Widget.mem_sortClips]
      exact List.mem_append_right _ (List.mem_singleton.2 rfl)

/-- Witness for C6 (amended): target 99 fails atomically, target 1
succeeds, on the concrete one-clip widget. -/
theorem claim_C6_amended_witness :
    c6_w.move_clip_to_track c6_clip 99 = (.ok false, c6_w) ∧
    (c6_w.move_clip_to_track c6_clip 1).1 = .ok true :=
  ⟨(claim_C6_amended c6_w c6_clip 99 (by decide)).1 (by decide),
    ((claim_C6_amended c6_w c6_clip 1 (by decide)).2.2 0 (by decide)
      (by decide)).1⟩

/-! ## C5 -/

theorem filter_flatten (p : ℚ → Bool) (L : List (List ℚ)) :
    L.flatten.filter p = (L.map (fun l => l.filter p)).flatten := by
  induction L with
  | nil => simp
  | cons a as ih => simp [List.filter_append, ih]

/-- The distance from `q` to Python's `round(q)` is
`min (q - ⌊q⌋) (⌊q⌋ + 1 - q)`. -/
theorem pyRound_dist (t : ℚ) :
    |t - pyRound t| = min (t - (⌊t⌋ : ℚ)) ((⌊t⌋ : ℚ) + 1 - t) := by
  have hfl : (⌊t⌋ : ℚ) ≤ t := Int.floor_le t
  have hfu : t < (⌊t⌋ : ℚ) + 1 := Int.lt_floor_add_one t
  simp only [pyRound]
  split_ifs with h1 h2 h3
  · rw [abs_of_nonneg (by linarith), min_eq_left (by linarith)]
  · push_cast
    rw [abs_sub_comm, abs_of_nonneg (by linarith),
      min_eq_right (by linarith)]
  · have hr : t - (⌊t⌋ : ℚ) = 1/2 :=
      le_antisymm (not_lt.1 h2) (not_lt.1 h1)
    rw [abs_of_nonneg (by linarith), min_eq_left (by linarith)]
  · have hr : t - (⌊t⌋ : ℚ) = 1/2 :=
      le_antisymm (not_lt.1 h2) (not_lt.1 h1)
    push_cast
    rw [abs_sub_comm, abs_of_nonneg (by linarith),
      min_eq_right (by linarith)]

/-- `round(q)` is a nearest integer to `q`. -/
theorem pyRound_nearest (t : ℚ) (n : ℤ) : |t - pyRound t| ≤ |t - (n : ℚ)| := by
  have hfl : (⌊t⌋ : ℚ) ≤ t := Int.floor_le t
  have hfu : t < (⌊t⌋ : ℚ) + 1 := Int.lt_floor_add_one t
  rw [pyRound_dist]
  rcases le_or_lt n ⌊t⌋ with hn | hn
  · have hnq : (n : ℚ) ≤ (⌊t⌋ : ℚ) := by exact_mod_cast hn
    refine le_trans (min_le_left _ _) ?_
    rw [abs_of_nonneg (by linarith)]
    linarith
  · have hnq : (⌊t⌋ : ℚ) + 1 ≤ (n : ℚ) := by exact_mod_cast hn
    refine le_trans (min_le_right _ _) ?_
    rw [abs_sub_comm, abs_of_nonneg (by linarith)]
    linarith

namespace Widget

/-- The `candidates` list is exactly the target list filtered by the strict
threshold test. -/
theorem snapCandidates_eq_filter (w : TimelineWidget) (t : ℚ)
    (d : Option TimelineClip) :
    w.snapCandidates t d = (w.snapTargets t d).filter
      (fun x => decide (|t - x| < w.snap_threshold)) := by
  unfold TimelineWidget.snapCandidates TimelineWidget.snapTargets
  rw [List.cons_append, List.cons_append, List.nil_append,
    List.filter_cons, List.filter_cons]
  rw [filter_flatten, List.map_map]
  have hinner :
      ∀ tr ∈ w.tracks,
        ((fun l => l.filter (fun x => decide (|t - x| < w.snap_threshold))) ∘
          fun tr : TimelineTrack =>
            (tr.clips.map fun c =>
              if TimelineWidget.skipsDragging d c then []
              else [c.start_time, c.end_time]).flatten) tr =
        (tr.clips.map fun c =>
          if TimelineWidget.skipsDragging d c then []
          else
            (if |t - c.start_time| < w.snap_threshold then [c.start_time]
             else []) ++
            (if |t - c.end_time| < w.snap_threshold then [c.end_time]
             else [])).flatten := by
    intro tr _
    simp only [Function.comp_apply]
    rw [filter_flatten, List.map_map]
    congr 1
    apply List.map_congr_left
    intro c _
    simp only [Function.comp_apply]
    by_cases hs : TimelineWidget.skipsDragging d c
    · simp [hs]
    · by_cases hc1 : |t - c.start_time| < w.snap_threshold <;>
      by_cases hc2 : |t - c.end_time| < w.snap_threshold <;>
        simp [hs, hc1, hc2, List.filter_cons]
  rw [List.map_congr_left hinner]
  by_cases hg : |t - pyRound t| < w.snap_threshold <;>
  by_cases hp : |t - w.playhead_time| < w.snap_threshold <;>
    simp [hg, hp]

end Widget

/-- C5: with snapping enabled, `snap_time` returns the candidate nearest to
`t` among the round-to-nearest grid second (`pyRound`, a nearest integer),
the playhead, and the start/end of every clip other than the dragged one,
whenever some candidate lies within the threshold `5 / pixels_per_second`;
with no candidate in range (or snapping disabled) it returns `t`
unchanged. -/
theorem claim_C5 (w : Widget.TimelineWidget) (t : ℚ)
    (d : Option Widget.TimelineClip) :
    w.snap_threshold = 5 / w.pixels_per_second ∧
    (∀ n : ℤ, |t - pyRound t| ≤ |t - (n : ℚ)|) ∧
    (w.snap_enabled = false → w.snap_time t d = t) ∧
    (w.snap_enabled = true →
      ((∀ c ∈ w.snapTargets t d, ¬(|t - c| < w.snap_threshold)) →
          w.snap_time t d = t) ∧
      (∀ c₀ ∈ w.snapTargets t d, |t - c₀| < w.snap_threshold →
        w.snap_time t d ∈ w.snapTargets t d ∧
        |t - w.snap_time t d| < w.snap_threshold ∧
        ∀ c ∈ w.snapTargets t d, |t - w.snap_time t d| ≤ |t - c|)) := by
  refine ⟨?_, fun n => pyRound_nearest t n, ?_, ?_⟩
  · unfold Widget.TimelineWidget.snap_threshold
    ring
  · intro h
    simp [Widget.TimelineWidget.snap_time, h]
  · intro h
    constructor
    · intro hall
      have hcand : w.snapCandidates t d = [] := by
        rw [Widget.snapCandidates_eq_filter]
        rw [List.filter_eq_nil_iff]
        intro a ha
        simpa using hall a ha
      simp [Widget.TimelineWidget.snap_time, h, hcand]
    · intro c₀ hc₀ hthr
      have hc₀' : c₀ ∈ w.snapCandidates t d := by
        rw [Widget.snapCandidates_eq_filter]
        exact List.mem_filter.2 ⟨hc₀, by simpa using hthr⟩
      cases hcand : w.snapCandidates t d with
      | nil => rw [hcand] at hc₀'; cases hc₀'
      | cons x xs =>
          have hst : w.snap_time t d = pyMinAbs t x xs := by
            simp [Widget.TimelineWidget.snap_time, h, hcand]
          obtain ⟨hmem, hmin⟩ := pyMinAbs_spec t x xs
          have hrc : w.snap_time t d ∈ w.snapCandidates t d := by
            rw [hst, hcand]; exact hmem
          rw [Widget.snapCandidates_eq_filter] at hrc
          have hrf := List.mem_filter.1 hrc
          have hrthr : |t - w.snap_time t d| < w.snap_threshold := by
            simpa using hrf.2
          refine ⟨hrf.1, hrthr, ?_⟩
          intro c hcT
          by_cases hcw : |t - c| < w.snap_threshold
          · have hcc : c ∈ w.snapCandidates t d := by
              rw [Widget.snapCandidates_eq_filter]
              exact List.mem_filter.2 ⟨hcT, by simpa using hcw⟩
            rw [hcand] at hcc
            have := hmin c hcc
            rw [hst, abs_sub_comm t _, abs_sub_comm t c]
            exact this
          · exact le_trans hrthr.le (not_lt.1 hcw)

/-- Witness for C5 on the default widget (threshold `1/10`): at `t = 3/100`
the grid point 0 is in range and `snap_time` returns a nearest in-range
candidate. -/
theorem claim_C5_witness :
    Widget.mkTimelineWidget.snap_enabled = true ∧
    pyRound (3/100) ∈ Widget.mkTimelineWidget.snapTargets (3/100) none ∧
    |(3/100 : ℚ) - pyRound (3/100)| < Widget.mkTimelineWidget.snap_threshold ∧
    (Widget.mkTimelineWidget.snap_time (3/100) none ∈
        Widget.mkTimelineWidget.snapTargets (3/100) none ∧
      |(3/100 : ℚ) - Widget.mkTimelineWidget.snap_time (3/100) none| <
        Widget.mkTimelineWidget.snap_threshold ∧
      ∀ c ∈ Widget.mkTimelineWidget.snapTargets (3/100) none,
        |(3/100 : ℚ) - Widget.mkTimelineWidget.snap_time (3/100) none| ≤
          |(3/100 : ℚ) - c|) := by
  have hpr : pyRound (3/100) = 0 := by norm_num [pyRound]
  have hthr : Widget.mkTimelineWidget.snap_threshold = 1/10 := by
    norm_num [Widget.TimelineWidget.snap_threshold, Widget.mkTimelineWidget]
  have hmem : pyRound (3/100) ∈
      Widget.mkTimelineWidget.snapTargets (3/100) none := by
    simp [Widget.TimelineWidget.snapTargets]
  have hin : |(3/100 : ℚ) - pyRound (3/100)| <
      Widget.mkTimelineWidget.snap_threshold := by
    rw [hpr, hthr]
    rw [abs_of_nonneg (by norm_num : (0:ℚ) ≤ 3/100 - 0)]
    norm_num
  exact ⟨rfl, hmem, hin,
    ((claim_C5 Widget.mkTimelineWidget (3/100) none).2.2.2 rfl).2
      (pyRound (3/100)) hmem hin⟩

/-! ## C1 -/

/-- A ten-second video media clip. -/
def c1_media : Core.MediaClip := ⟨10, true⟩

/-- The `TimelineClip` that `add_clip(c1_media, 0, 0)` creates on a fresh
timeline (clip id 0). -/
def c1_clip : Core.TimelineClip :=
  { id := 0, clip := c1_media, start_time := 0, track := 0, duration := 10,
    end_time := 10, selected := false }

/-- The state of `Timeline()` after `add_clip(c1_media, 0, 0)`: one video
track holding the one clip. -/
def c1_tl : Core.Timeline :=
  { Core.mkTimeline with
    clips := [c1_clip]
    video_tracks := [{ Core.mkTrack "video" with clips := [c1_clip] }]
    nextId := 1 }

/-- C1 counterexample: on a one-clip timeline, `remove_clip` of the existing
clip raises `AttributeError` (the class has no `tracks` attribute) after
already removing the clip from `self.clips` — an exception and a partial
mutation; and `add_clip` on a locked track raises `ValueError` rather than
reporting a boolean failure. -/
theorem claim_C1_counterexample :
    (c1_tl.remove_clip 0).1 = .error .attributeError ∧
    (c1_tl.remove_clip 0).2.clips = [] ∧
    c1_tl.clips ≠ [] ∧
    ((c1_tl.lock_track "video" 0).add_clip c1_media 5 0).1 =
      .error .valueError := by
  refine ⟨rfl, rfl, ?_, rfl⟩
  have h : c1_tl.clips = [c1_clip] := rfl
  rw [h]
  exact List.cons_ne_nil _ _

/-- C1 amended: only the not-found/invalid-time failure paths report
failures as `False`/`None` without mutation.  `add_clip` raises `ValueError`
on a locked track (state unchanged) and otherwise succeeds; for a clip id
that exists, `remove_clip` raises `AttributeError` after dropping the clip
from the `clips` list while leaving the track lists untouched (partial
mutation), `move_clip` raises `AttributeError` without mutating, and
`split_clip` at a valid interior time catches that error and returns
`(None, None)` with the clip silently dropped from the `clips` list. -/
theorem claim_C1_amended (tl : Core.Timeline) :
    (∀ (clip : Core.MediaClip) (st : ℚ) (track : ℕ),
      (tl.is_track_locked (if clip.hasFps then "video" else "audio") track =
          true →
        tl.add_clip clip st track = (.error .valueError, tl)) ∧
      (tl.is_track_locked (if clip.hasFps then "video" else "audio") track =
          false →
        ∃ i, (tl.add_clip clip st track).1 = .ok i)) ∧
    (∀ cid, tl.get_clip_by_id cid = none →
      tl.remove_clip cid = (.ok false, tl) ∧
      (∀ ns nt, tl.move_clip cid ns nt = (.ok false, tl)) ∧
      (∀ s, tl.split_clip cid s = ((none, none), tl))) ∧
    (∀ cid c, tl.get_clip_by_id cid = some c →
      (tl.remove_clip cid).1 = .error .attributeError ∧
      (tl.remove_clip cid).2.clips.length + 1 = tl.clips.length ∧
      (tl.remove_clip cid).2.video_tracks = tl.video_tracks ∧
      (tl.remove_clip cid).2.audio_tracks = tl.audio_tracks ∧
      (∀ ns nt, tl.move_clip cid ns nt = (.error .attributeError, tl)) ∧
      (∀ s, (s - c.start_time ≤ 0 ∨ c.duration ≤ s - c.start_time) →
        tl.split_clip cid s = ((none, none), tl)) ∧
      (∀ s, 0 < s - c.start_time → s - c.start_time < c.duration →
        (tl.split_clip cid s).1 = (none, none) ∧
        (tl.split_clip cid s).2.clips.length + 1 = tl.clips.length ∧
        (tl.split_clip cid s).2.video_tracks = tl.video_tracks ∧
        (tl.split_clip cid s).2.audio_tracks = tl.audio_tracks)) := by
  refine ⟨?_, ?_, ?_⟩
  · intro clip st track
    constructor
    · intro h
      simp only [Core.Timeline.add_clip]
      rw [h]
      rfl
    · intro h
      simp only [Core.Timeline.add_clip]
      rw [h]
      exact ⟨_, rfl⟩
  · intro cid hf
    refine ⟨?_, ?_, ?_⟩
    · simp [Core.Timeline.remove_clip, hf]
    · intro ns nt
      simp [Core.Timeline.move_clip, hf]
    · intro s
      simp [Core.Timeline.split_clip, hf]
  · intro cid c hf
    have hf' : tl.clips.find? (fun d => decide (d.id = cid)) = some c := hf
    have hmemc : c ∈ tl.clips := List.mem_of_find?_eq_some hf'
    refine ⟨?_, ?_, ?_, ?_, ?_, ?_, ?_⟩
    · simp [Core.Timeline.remove_clip, hf]
    · simp only [Core.Timeline.remove_clip, hf]
      exact removeFirst_length hmemc
    · simp [Core.Timeline.remove_clip, hf]
    · simp [Core.Timeline.remove_clip, hf]
    · intro ns nt
      simp [Core.Timeline.move_clip, hf]
    · intro s hs
      simp only [Core.Timeline.split_clip, hf]
      rw [if_pos hs]
    · intro s hs1 hs2
      have hcond : ¬(s - c.start_time ≤ 0 ∨
          c.duration ≤ s - c.start_time) := by
        push_neg
        exact ⟨hs1, hs2⟩
      simp only [Core.Timeline.split_clip, hf]
      rw [if_neg hcond]
      refine ⟨rfl, ?_, rfl, rfl⟩
      exact removeFirst_length hmemc

/-- Witness for C1 (amended) at the concrete one-clip timeline. -/
theorem claim_C1_amended_witness :
    Core.mkTimeline.is_track_locked "video" 0 = false ∧
    (∃ i, (Core.mkTimeline.add_clip c1_media 0 0).1 = .ok i) ∧
    c1_tl.get_clip_by_id 5 = none ∧
    c1_tl.remove_clip 5 = (.ok false, c1_tl) ∧
    c1_tl.get_clip_by_id 0 = some c1_clip ∧
    (c1_tl.remove_clip 0).1 = .error .attributeError ∧
    (c1_tl.remove_clip 0).2.clips.length + 1 = c1_tl.clips.length ∧
    (c1_tl.split_clip 0 4).1 = (none, none) ∧
    (c1_tl.split_clip 0 4).2.clips.length + 1 = c1_tl.clips.length :=
  ⟨rfl,
    ((claim_C1_amended Core.mkTimeline).1 c1_media 0 0).2 rfl,
    rfl,
    ((claim_C1_amended c1_tl).2.1 5 rfl).1,
    rfl,
    ((claim_C1_amended c1_tl).2.2 0 c1_clip rfl).1,
    ((claim_C1_amended c1_tl).2.2 0 c1_clip rfl).2.1,
    (((claim_C1_amended c1_tl).2.2 0 c1_clip rfl).2.2.2.2.2.2 4
      (by norm_num [c1_clip]) (by norm_num [c1_clip])).1,
    (((claim_C1_amended c1_tl).2.2 0 c1_clip rfl).2.2.2.2.2.2 4
      (by norm_num [c1_clip]) (by norm_num [c1_clip])).2.1⟩

/-- The fixture state is the one `add_clip` actually produces. -/
theorem c1_tl_reachable : (Core.mkTimeline.add_clip c1_media 0 0).2 = c1_tl := by
  norm_num [Core.Timeline.add_clip, Core.mkTimeline,
    Core.Timeline.is_track_locked, Core.Timeline.ensure_track_exists,
    Core.Timeline.get_tracks, Core.Timeline.set_tracks,
    Core.Timeline.get_nearest_snap_position, Core.Timeline.get_snap_positions,
    Core.mkTrack, c1_tl, c1_clip, c1_media, sortQ, insortQ, pyMinAbs,
    updateAt, List.dedup]

/-! ## C8 -/

namespace Widget

/-- One mutating call on an `AutomationTrack`. -/
inductive AOp where
  | add : ℚ → ℚ → AOp
  | rem : ℚ → AOp

def applyAOp (a : AutomationTrack) : AOp → AutomationTrack
  | .add t v => a.add_keyframe t v
  | .rem t => a.remove_keyframe t

/-- The track obtained from `AutomationTrack(pid, pname)` by a sequence of
`add_keyframe` / `remove_keyframe` calls. -/
def runAOps (pid : ℤ) (pname : String) (ops : List AOp) : AutomationTrack :=
  ops.foldl applyAOp (mkAutomationTrack pid pname)

/-- Well-formedness of an automation track: ordered bounds, duplicate-free
dict keys, and every stored value clamped into the bounds. -/
def AutoWF (a : AutomationTrack) : Prop :=
  a.min_value ≤ a.max_value ∧
  (a.keyframes.map (·.1)).Nodup ∧
  ∀ p ∈ a.keyframes, a.min_value ≤ p.2 ∧ p.2 ≤ a.max_value

theorem dictSet_keys_present {kfs : List (ℚ × ℚ)} {t v : ℚ}
    (h : kfs.any (fun p => decide (p.1 = t)) = true) :
    (dictSet kfs t v).map (·.1) = kfs.map (·.1) := by
  simp only [dictSet, h, if_true]
  rw [List.map_map]
  apply List.map_congr_left
  intro p _
  simp only [Function.comp_apply]
  by_cases hp : p.1 = t
  · simp [hp]
  · simp [hp]

theorem dictSet_keys_absent {kfs : List (ℚ × ℚ)} {t v : ℚ}
    (h : kfs.any (fun p => decide (p.1 = t)) = false) :
    (dictSet kfs t v).map (·.1) = kfs.map (·.1) ++ [t] := by
  simp only [dictSet, h, Bool.false_eq_true, if_false]
  simp

theorem dictSet_mem {kfs : List (ℚ × ℚ)} {t v : ℚ} {q : ℚ × ℚ}
    (hq : q ∈ dictSet kfs t v) : q ∈ kfs ∨ q = (t, v) := by
  unfold dictSet at hq
  by_cases h : kfs.any (fun p => decide (p.1 = t)) = true
  · rw [if_pos h] at hq
    rcases List.mem_map.1 hq with ⟨p, hp, hpq⟩
    by_cases hpt : p.1 = t
    · right
      rw [← hpq]
      simp [hpt]
    · left
      rw [← hpq]
      simpa [hpt] using hp
  · rw [if_neg h] at hq
    rcases List.mem_append.1 hq with h' | h'
    · exact Or.inl h'
    · exact Or.inr (List.mem_singleton.1 h')

theorem autoWF_mk (pid : ℤ) (pname : String) :
    AutoWF (mkAutomationTrack pid pname) := by
  refine ⟨by norm_num [mkAutomationTrack], by simp [mkAutomationTrack], ?_⟩
  intro p hp
  simp [mkAutomationTrack] at hp

theorem autoWF_add {a : AutomationTrack} (h : AutoWF a) (t v : ℚ) :
    AutoWF (a.add_keyframe t v) := by
  obtain ⟨hmm, hnd, hval⟩ := h
  have hclamp : a.min_value ≤ max a.min_value (min a.max_value v) ∧
      max a.min_value (min a.max_value v) ≤ a.max_value := by
    constructor
    · exact le_max_left _ _
    · exact max_le hmm (min_le_left _ _)
  refine ⟨hmm, ?_, ?_⟩
  · by_cases hp : a.keyframes.any (fun p => decide (p.1 = t)) = true
    · simpa [AutomationTrack.add_keyframe, dictSet_keys_present hp] using hnd
    · have hp' : a.keyframes.any (fun p => decide (p.1 = t)) = false :=
        Bool.not_eq_true _ ▸ eq_false_of_ne_true hp
      have hnot : t ∉ a.keyframes.map (·.1) := by
        intro hmem
        rcases List.mem_map.1 hmem with ⟨p, hpk, hpt⟩
        have := List.any_eq_false.1 hp' p hpk
        simp [hpt] at this
      simp only [AutomationTrack.add_keyframe, dictSet_keys_absent hp']
      rw [List.nodup_append]
      refine ⟨hnd, List.nodup_singleton t, ?_⟩
      intro x hx hxt
      rw [List.mem_singleton] at hxt
      exact hnot (hxt ▸ hx)
  · intro p hp
    rcases dictSet_mem hp with h' | h'
    · exact hval p h'
    · rw [h']
      exact hclamp

theorem autoWF_rem {a : AutomationTrack} (h : AutoWF a) (t : ℚ) :
    AutoWF (a.remove_keyframe t) := by
  obtain ⟨hmm, hnd, hval⟩ := h
  refine ⟨hmm, ?_, ?_⟩
  · have hsub : ((a.remove_keyframe t).keyframes).Sublist a.keyframes :=
      List.filter_sublist _
    exact List.Nodup.sublist (List.Sublist.map (fun p => p.1) hsub) hnd
  · intro p hp
    exact hval p (List.mem_of_mem_filter hp)

theorem runAOps_WF (pid : ℤ) (pname : String) (ops : List AOp) :
    AutoWF (runAOps pid pname ops) := by
  have key : ∀ (l : List AOp) (a : AutomationTrack), AutoWF a →
      AutoWF (l.foldl applyAOp a) := by
    intro l
    induction l with
    | nil => intro a ha; exact ha
    | cons op rest ih =>
        intro a ha
        cases op with
        | add t v => exact ih _ (autoWF_add ha t v)
        | rem t => exact ih _ (autoWF_rem ha t)
  exact key ops _ (autoWF_mk pid pname)

end Widget

namespace Widget

theorem dictGet_bounds {a : AutomationTrack} (h : AutoWF a)
    {t : ℚ} (ht : t ∈ a.keyframes.map (·.1)) :
    a.min_value ≤ dictGet a.keyframes t ∧
      dictGet a.keyframes t ≤ a.max_value := by
  rcases List.mem_map.1 ht with ⟨p, hp, hpt⟩
  have hsome : (a.keyframes.find? (fun q => decide (q.1 = t))).isSome :=
    List.find?_isSome.2 ⟨p, hp, by simp [hpt]⟩
  obtain ⟨q, hq⟩ := Option.isSome_iff_exists.1 hsome
  have hqmem : q ∈ a.keyframes := List.mem_of_find?_eq_some hq
  have hd : dictGet a.keyframes t = q.2 := by simp [dictGet, hq]
  rw [hd]
  exact h.2.2 q hqmem

theorem interpScan_bounds {a : AutomationTrack} (h : AutoWF a) (t : ℚ) :
    ∀ l : List ℚ, l.Sorted (· ≤ ·) → l.Nodup →
      (∀ x ∈ l, x ∈ a.keyframes.map (·.1)) →
      a.min_value ≤ a.interpScan t l ∧ a.interpScan t l ≤ a.max_value := by
  have hmid : a.min_value ≤ (a.min_value + a.max_value) / 2 ∧
      (a.min_value + a.max_value) / 2 ≤ a.max_value := by
    constructor <;> linarith [h.1]
  intro l
  induction l with
  | nil => intro _ _ _; exact hmid
  | cons t1 rest ih =>
      cases rest with
      | nil => intro _ _ _; exact hmid
      | cons t2 rest2 =>
          intro hs hd hk
          by_cases hg : t1 ≤ t ∧ t ≤ t2
          · simp only [AutomationTrack.interpScan, hg, and_self, if_true]
            have hb1 := dictGet_bounds h (hk t1 (List.mem_cons_self _ _))
            have hb2 := dictGet_bounds h
              (hk t2 (List.mem_cons_of_mem _ (List.mem_cons_self _ _)))
            set v1 := dictGet a.keyframes t1 with hv1
            set v2 := dictGet a.keyframes t2 with hv2
            have h12 : t1 < t2 := by
              have hle : t1 ≤ t2 :=
                (List.sorted_cons.1 hs).1 t2
                  (List.mem_cons_self _ _)
              have hne : t1 ≠ t2 := by
                intro hc
                have := (List.nodup_cons.1 hd).1
                rw [hc] at this
                exact this (List.mem_cons_self _ _)
              exact lt_of_le_of_ne hle hne
            have hf0 : 0 ≤ (t - t1) / (t2 - t1) :=
              div_nonneg (by linarith [hg.1]) (by linarith)
            have hf1 : (t - t1) / (t2 - t1) ≤ 1 := by
              rw [div_le_one (by linarith)]
              linarith [hg.2]
            rcases le_total v1 v2 with hv | hv
            · constructor
              · have hnn : 0 ≤ (v2 - v1) * ((t - t1) / (t2 - t1)) :=
                  mul_nonneg (by linarith) hf0
                linarith [hb1.1]
              · have hle1 : (v2 - v1) * ((t - t1) / (t2 - t1)) ≤ v2 - v1 :=
                  mul_le_of_le_one_right (by linarith) hf1
                linarith [hb2.2]
            · constructor
              · have hge : (v2 - v1) * 1 ≤ (v2 - v1) * ((t - t1) / (t2 - t1)) :=
                  mul_le_mul_of_nonpos_left hf1 (by linarith)
                linarith [hb2.1]
              · have hnp : (v2 - v1) * ((t - t1) / (t2 - t1)) ≤ 0 :=
                  mul_nonpos_of_nonpos_of_nonneg (by linarith) hf0
                linarith [hb1.2]
          · simp only [AutomationTrack.interpScan, hg, if_false]
            exact ih (List.sorted_cons.1 hs).2 (List.nodup_cons.1 hd).2
              (fun x hx => hk x (List.mem_cons_of_mem _ hx))

theorem get_value_at_time_bounds {a : AutomationTrack} (h : AutoWF a)
    (t : ℚ) :
    a.min_value ≤ a.get_value_at_time t ∧
      a.get_value_at_time t ≤ a.max_value := by
  have hmid : a.min_value ≤ (a.min_value + a.max_value) / 2 ∧
      (a.min_value + a.max_value) / 2 ≤ a.max_value := by
    constructor <;> linarith [h.1]
  unfold AutomationTrack.get_value_at_time
  split
  · exact hmid
  · dsimp only
    split
    · exact hmid
    · next t0 ts hLs =>
        have hsub : ∀ x ∈ t0 :: ts, x ∈ a.keyframes.map (·.1) := by
          intro x hx
          rw [← hLs] at hx
          exact (sortQ_perm _).mem_iff.1 hx
        split_ifs with h1 h2
        · exact dictGet_bounds h (hsub t0 (List.mem_cons_self _ _))
        · exact dictGet_bounds h
            (hsub _ (List.getLast_mem (by simp)))
        · refine interpScan_bounds h t (t0 :: ts) ?_ ?_ ?_
          · rw [← hLs]
            exact sortQ_sorted _
          · rw [← hLs]
            exact ((sortQ_perm _).nodup_iff).2 h.2.1
          · exact hsub

end Widget

/-- C8: every automation track reachable from `AutomationTrack(pid, pname)`
by `add_keyframe` / `remove_keyframe` calls stores only values inside
`[min_value, max_value]`, and `get_value_at_time` answers inside
`[min_value, max_value]` at every time (empty default, boundary clamps and
interpolated values alike). -/
theorem claim_C8 (pid : ℤ) (pname : String) (ops : List Widget.AOp) (t : ℚ) :
    (∀ p ∈ (Widget.runAOps pid pname ops).keyframes,
      (Widget.runAOps pid pname ops).min_value ≤ p.2 ∧
        p.2 ≤ (Widget.runAOps pid pname ops).max_value) ∧
    (Widget.runAOps pid pname ops).min_value ≤
        (Widget.runAOps pid pname ops).get_value_at_time t ∧
      (Widget.runAOps pid pname ops).get_value_at_time t ≤
        (Widget.runAOps pid pname ops).max_value := by
  have hWF := Widget.runAOps_WF pid pname ops
  exact ⟨hWF.2.2, Widget.get_value_at_time_bounds hWF t⟩

/-- Witness for C8: one `add_keyframe(3, 5)` on a fresh track stores the
clamped pair `(3, 1)`, which the theorem bounds into `[0, 1]`. -/
theorem claim_C8_witness :
    ((3 : ℚ), (1 : ℚ)) ∈
      (Widget.runAOps 0 "volume" [Widget.AOp.add 3 5]).keyframes ∧
    ((Widget.runAOps 0 "volume" [Widget.AOp.add 3 5]).min_value ≤
        ((3 : ℚ), (1 : ℚ)).2 ∧
      ((3 : ℚ), (1 : ℚ)).2 ≤
        (Widget.runAOps 0 "volume" [Widget.AOp.add 3 5]).max_value) ∧
    ((Widget.runAOps 0 "volume" [Widget.AOp.add 3 5]).min_value ≤
        (Widget.runAOps 0 "volume" [Widget.AOp.add 3 5]).get_value_at_time 2 ∧
      (Widget.runAOps 0 "volume" [Widget.AOp.add 3 5]).get_value_at_time 2 ≤
        (Widget.runAOps 0 "volume" [Widget.AOp.add 3 5]).max_value) := by
  have hmem : ((3 : ℚ), (1 : ℚ)) ∈
      (Widget.runAOps 0 "volume" [Widget.AOp.add 3 5]).keyframes := by
    norm_num [Widget.runAOps, Widget.applyAOp, Widget.mkAutomationTrack,
      Widget.AutomationTrack.add_keyframe, Widget.dictSet]
  exact ⟨hmem, (claim_C8 0 "volume" [Widget.AOp.add 3 5] 2).1 (3, 1) hmem,
    (claim_C8 0 "volume" [Widget.AOp.add 3 5] 2).2⟩

/-! ## C7 -/

/-- In a strictly sorted list, indexed values are monotone. -/
theorem sorted_get?_le {l : List ℚ} (hs : l.Sorted (· < ·)) {i j : ℕ}
    {x y : ℚ} (hij : i ≤ j) (hi : l.get? i = some x)
    (hj : l.get? j = some y) : x ≤ y := by
  rcases lt_or_eq_of_le hij with hlt | heq
  · obtain ⟨hi', hix⟩ := List.get?_eq_some.1 hi
    obtain ⟨hj', hjy⟩ := List.get?_eq_some.1 hj
    have := (List.pairwise_iff_get.1 hs) ⟨i, hi'⟩ ⟨j, hj'⟩ hlt
    rw [hix, hjy] at this
    exact this.le
  · rw [heq, hj] at hi
    exact (Option.some_injective _ hi.symm).le

/-- In a strictly sorted list, adjacent indexed values are strictly
ordered. -/
theorem sorted_get?_lt {l : List ℚ} (hs : l.Sorted (· < ·)) {i j : ℕ}
    {x y : ℚ} (hij : i < j) (hi : l.get? i = some x)
    (hj : l.get? j = some y) : x < y := by
  obtain ⟨hi', hix⟩ := List.get?_eq_some.1 hi
  obtain ⟨hj', hjy⟩ := List.get?_eq_some.1 hj
  have := (List.pairwise_iff_get.1 hs) ⟨i, hi'⟩ ⟨j, hj'⟩ hij
  rw [hix, hjy] at this
  exact this

/-- The bracketing property of `bisect_right` on a strictly sorted list. -/
theorem bisectRight_bracket {l : List ℚ} (hs : l.Sorted (· < ·)) {i : ℕ}
    {a b t : ℚ} (ha : l.get? i = some a) (hat : a ≤ t)
    (hb : l.get? (i + 1) = some b) (hbt : t < b) :
    bisectRight l t = i + 1 := by
  induction l generalizing i with
  | nil => simp at ha
  | cons x xs ih =>
      cases i with
      | zero =>
          have hxa : x = a := by simpa using ha
          have hx : decide (x ≤ t) = true := by simp [hxa, hat]
          rcases xs with _ | ⟨y, ys⟩
          · simp at hb
          · have hyb : y = b := by simpa using hb
            have hy : decide (y ≤ t) = false := by
              simp [hyb, not_le.2 hbt]
            simp [bisectRight, List.takeWhile, hx, hy]
      | succ i =>
          have hax : a ∈ xs := by
            have := List.get?_mem (by simpa using ha :
              xs.get? i = some a)
            exact this
          have hxa : x < a := ((List.pairwise_cons.1 hs).1 a hax)
          have hx : decide (x ≤ t) = true := by
            simp [le_of_lt (lt_of_lt_of_le hxa hat)]
          have hrec := ih ((List.pairwise_cons.1 hs).2)
            (by simpa using ha) (by simpa using hb)
          simp only [bisectRight, List.takeWhile, hx] at hrec ⊢
          simpa [bisectRight] using congrArg Nat.succ hrec

/-- The `KeyframeTrack` invariant: strictly increasing keyframe times. -/
def StrictTimes (tr : KeyframeTrack) : Prop :=
  (tr.keyframes.map (·.time)).Sorted (· < ·)

/-- `evaluate` between two bracketing keyframes is the linear
interpolation. -/
theorem evaluate_bracket {tr : KeyframeTrack} (hs : StrictTimes tr) {i : ℕ}
    {ki ki1 : Keyframe} {t : ℚ} (hki : tr.keyframes.get? i = some ki)
    (hki1 : tr.keyframes.get? (i + 1) = some ki1) (h1 : ki.time ≤ t)
    (h2 : t < ki1.time) :
    tr.evaluate t =
      ki.value + (ki1.value - ki.value) *
        ((t - ki.time) / (ki1.time - ki.time)) := by
  rcases hk : tr.keyframes with _ | ⟨k0, rest⟩
  · rw [hk] at hki
    simp at hki
  · have hs' : ((k0 :: rest).map (·.time)).Sorted (· < ·) := by
      rw [← hk]
      exact hs
    rw [hk] at hki hki1
    have hti : ((k0 :: rest).map (·.time)).get? i = some ki.time := by
      rw [List.get?_map, hki]
      rfl
    have hti1 : ((k0 :: rest).map (·.time)).get? (i + 1) = some ki1.time := by
      rw [List.get?_map, hki1]
      rfl
    have ht0 : ((k0 :: rest).map (·.time)).get? 0 = some k0.time := by simp
    have hc1 : ¬ (t < k0.time) :=
      not_lt.2 (le_trans (sorted_get?_le hs' (Nat.zero_le i) ht0 hti) h1)
    have hlen1 : i + 1 < (k0 :: rest).length := (List.get?_eq_some.1 hki1).1
    have hne : (k0 :: rest) ≠ [] := by simp
    have hlast_get : ((k0 :: rest).map (·.time)).get?
        ((k0 :: rest).length - 1) =
        some (((k0 :: rest).getLast hne).time) := by
      rw [List.get?_map]
      rw [List.getLast_eq_get]
      rw [List.get?_eq_get (by omega : (k0 :: rest).length - 1 <
        (k0 :: rest).length)]
      rfl
    have hc2 : ¬ (((k0 :: rest).getLast hne).time ≤ t) := by
      have hle : ki1.time ≤ ((k0 :: rest).getLast hne).time :=
        sorted_get?_le hs' (by omega) hti1 hlast_get
      exact not_le.2 (lt_of_lt_of_le h2 hle)
    have hbi : bisectRight ((k0 :: rest).map (·.time)) t = i + 1 :=
      bisectRight_bracket hs' hti h1 hti1 h2
    simp only [KeyframeTrack.evaluate, hk]
    rw [if_neg hc1, if_neg hc2, hbi]
    have hgd1 : (k0 :: rest).getD (i + 1 - 1) ⟨0, 0⟩ = ki := by
      rw [List.getD_eq_get?]
      simp only [Nat.add_sub_cancel, ← List.get?_eq_getElem?]
      rw [hki]
      rfl
    have hgd2 : (k0 :: rest).getD (i + 1) ⟨0, 0⟩ = ki1 := by
      rw [List.getD_eq_get?, hki1]
      rfl
    rw [hgd1, hgd2]
    rcases eq_or_lt_of_le h1 with heq | hlt
    · subst heq
      simp [npInterp]
    · unfold npInterp
      rw [if_neg (not_le.2 hlt), if_neg (not_le.2 h2)]

/-- Under the sortedness invariant, `evaluate` at a stored keyframe's exact
time returns exactly that keyframe's value. -/
theorem evaluate_at_stored {tr : KeyframeTrack} (hs : StrictTimes tr)
    {kf : Keyframe} (hmem : kf ∈ tr.keyframes) :
    tr.evaluate kf.time = kf.value := by
  obtain ⟨j, hj⟩ := List.mem_iff_get?.1 hmem
  have htj : (tr.keyframes.map (·.time)).get? j = some kf.time := by
    rw [List.get?_map, hj]
    rfl
  cases hnext : tr.keyframes.get? (j + 1) with
  | some knext =>
      have htj1 : (tr.keyframes.map (·.time)).get? (j + 1) =
          some knext.time := by
        rw [List.get?_map, hnext]
        rfl
      have hlt : kf.time < knext.time :=
        sorted_get?_lt hs (Nat.lt_succ_self j) htj htj1
      rw [evaluate_bracket hs hj hnext (le_refl _) hlt]
      simp
  | none =>
      rcases hk : tr.keyframes with _ | ⟨k0, rest⟩
      · rw [hk] at hj
        simp at hj
      · rw [hk] at hj hnext
        have hjlen : j < (k0 :: rest).length := (List.get?_eq_some.1 hj).1
        have hlen : (k0 :: rest).length ≤ j + 1 := by
          by_contra hcon
          push_neg at hcon
          rw [List.get?_eq_get hcon] at hnext
          simp at hnext
        have hjeq : j = (k0 :: rest).length - 1 := by omega
        have hne : (k0 :: rest) ≠ [] := by simp
        have hlast : (k0 :: rest).getLast hne = kf := by
          rw [List.getLast_eq_get]
          rw [hjeq] at hj
          have hg := List.get?_eq_get
            (show (k0 :: rest).length - 1 < (k0 :: rest).length by omega)
          rw [hj] at hg
          exact (Option.some_injective _ hg).symm
        have hs' : ((k0 :: rest).map (·.time)).Sorted (· < ·) := by
          rw [← hk]
          exact hs
        have ht0 : ((k0 :: rest).map (·.time)).get? 0 = some k0.time := by
          simp
        have htj' : ((k0 :: rest).map (·.time)).get? j = some kf.time := by
          rw [List.get?_map, hj]
          rfl
        have hc1 : ¬ (kf.time < k0.time) :=
          not_lt.2 (sorted_get?_le hs' (Nat.zero_le j) ht0 htj')
        simp only [KeyframeTrack.evaluate, hk]
        rw [if_neg hc1, if_pos (le_of_eq (by rw [hlast]))]
        rw [hlast]

theorem npIsClose_self (x : ℚ) : npIsClose x x = true := by
  simp only [npIsClose, sub_self, abs_zero, decide_eq_true_eq]
  positivity

theorem insortKeyframe_perm (kf : Keyframe) (l : List Keyframe) :
    (KeyframeTrack.insortKeyframe kf l).Perm (kf :: l) := by
  induction l with
  | nil => simp [KeyframeTrack.insortKeyframe]
  | cons k ks ih =>
      by_cases h : k.time ≤ kf.time
      · simp only [KeyframeTrack.insortKeyframe, h, if_true]
        exact ((ih.cons k).trans (List.Perm.swap kf k ks))
      · simp [KeyframeTrack.insortKeyframe, h]

theorem insortKeyframe_sorted {kf : Keyframe} {l : List Keyframe}
    (hs : (l.map (·.time)).Sorted (· < ·))
    (hne : ∀ k ∈ l, k.time ≠ kf.time) :
    ((KeyframeTrack.insortKeyframe kf l).map (·.time)).Sorted (· < ·) := by
  induction l with
  | nil => simp [KeyframeTrack.insortKeyframe]
  | cons k ks ih =>
      rw [List.map_cons, List.sorted_cons] at hs
      by_cases hk : k.time ≤ kf.time
      · have hklt : k.time < kf.time :=
          lt_of_le_of_ne hk (hne k (List.mem_cons_self _ _))
        simp only [KeyframeTrack.insortKeyframe, hk, if_true, List.map_cons]
        rw [List.sorted_cons]
        constructor
        · intro b hb
          rcases List.mem_map.1 hb with ⟨q, hq, hbt⟩
          rcases List.mem_cons.1
              ((insortKeyframe_perm kf ks).mem_iff.1 hq) with hq' | hq'
          · rw [← hbt, hq']
            exact hklt
          · rw [← hbt]
            exact hs.1 q.time (List.mem_map.2 ⟨q, hq', rfl⟩)
        · exact ih hs.2 (fun q hq => hne q (List.mem_cons_of_mem _ hq))
      · have hlt : kf.time < k.time := lt_of_not_le hk
        simp only [KeyframeTrack.insortKeyframe, hk, if_false, List.map_cons]
        rw [List.sorted_cons]
        constructor
        · intro b hb
          rcases List.mem_cons.1 hb with hb' | hb'
          · rw [hb']
            exact hlt
          · exact lt_trans hlt (hs.1 b hb')
        · rw [List.sorted_cons]
          exact hs

theorem updateAt_map_eq {α β : Type} (f : α → α) (g : α → β)
    (h : ∀ x, g (f x) = g x) (i : ℕ) (l : List α) :
    (updateAt f i l).map g = l.map g := by
  induction l generalizing i with
  | nil => simp [updateAt]
  | cons x xs ih =>
      cases i with
      | zero => simp [updateAt, h]
      | succ i => simp [updateAt, ih]

theorem add_keyframe_sorted {tr : KeyframeTrack} (hs : StrictTimes tr)
    (t v : ℚ) : StrictTimes (tr.add_keyframe t v) := by
  unfold KeyframeTrack.add_keyframe
  cases hf : tr.find_keyframe_index t with
  | some i =>
      unfold StrictTimes
      simp only
      rw [updateAt_map_eq (fun kf : Keyframe => { kf with value := v })
        (fun x : Keyframe => x.time) (fun x => rfl)]
      exact hs
  | none =>
      have hne : ∀ k ∈ tr.keyframes, k.time ≠ t := by
        intro k hk hkt
        have hfa := List.findIdx?_eq_none_iff.1 hf k hk
        rw [hkt, npIsClose_self] at hfa
        cases hfa
      exact insortKeyframe_sorted hs hne

theorem ofAdds_sorted (ops : List (ℚ × ℚ)) :
    StrictTimes (KeyframeTrack.ofAdds ops) := by
  have key : ∀ (l : List (ℚ × ℚ)) (tr : KeyframeTrack), StrictTimes tr →
      StrictTimes (l.foldl (fun tr p => tr.add_keyframe p.1 p.2) tr) := by
    intro l
    induction l with
    | nil => intro tr h; exact h
    | cons p ps ih =>
        intro tr h
        exact ih _ (add_keyframe_sorted h p.1 p.2)
  exact key ops ⟨[]⟩ (by simp [StrictTimes])

/-- C7: under the strictly-increasing-times invariant, `evaluate` returns
`0.0` on an empty track, clamps to the first value before the first
keyframe and to the last value at/after the last keyframe, linearly
interpolates `v1 + (v2 - v1)*(t - t1)/(t2 - t1)` between bracketing
keyframes, and — for every track built by a sequence of `add_keyframe`
calls — returns exactly the stored value at a stored keyframe's exact
time. -/
theorem claim_C7 (tr : KeyframeTrack) (t : ℚ) (hs : StrictTimes tr) :
    (tr.keyframes = [] → tr.evaluate t = 0) ∧
    (∀ k0 rest, tr.keyframes = k0 :: rest → t < k0.time →
        tr.evaluate t = k0.value) ∧
    (∀ klast, tr.keyframes.getLast? = some klast → klast.time ≤ t →
        tr.evaluate t = klast.value) ∧
    (∀ i ki ki1, tr.keyframes.get? i = some ki →
        tr.keyframes.get? (i + 1) = some ki1 → ki.time ≤ t → t < ki1.time →
        tr.evaluate t = ki.value + (ki1.value - ki.value) *
          ((t - ki.time) / (ki1.time - ki.time))) ∧
    (∀ ops, tr = KeyframeTrack.ofAdds ops →
        ∀ kf ∈ tr.keyframes, tr.evaluate kf.time = kf.value) := by
  refine ⟨?_, ?_, ?_, ?_, ?_⟩
  · intro hk
    simp [KeyframeTrack.evaluate, hk]
  · intro k0 rest hk ht
    simp [KeyframeTrack.evaluate, hk, ht]
  · intro klast hlast hle
    rcases hk : tr.keyframes with _ | ⟨k0, rest⟩
    · rw [hk] at hlast
      simp at hlast
    · rw [hk] at hlast
      have hne : (k0 :: rest) ≠ [] := by simp
      have hgl : (k0 :: rest).getLast hne = klast := by
        rw [List.getLast?_eq_getLast _ hne] at hlast
        exact Option.some_injective _ hlast
      have hs' : ((k0 :: rest).map (·.time)).Sorted (· < ·) := by
        rw [← hk]
        exact hs
      have ht0 : ((k0 :: rest).map (·.time)).get? 0 = some k0.time := by simp
      have hlastget : ((k0 :: rest).map (·.time)).get?
          ((k0 :: rest).length - 1) = some klast.time := by
        rw [List.get?_map,
          List.get?_eq_get
            (show (k0 :: rest).length - 1 < (k0 :: rest).length by
              simp),
          ← hgl, List.getLast_eq_get]
        rfl
      have hk0 : k0.time ≤ klast.time :=
        sorted_get?_le hs' (Nat.zero_le _) ht0 hlastget
      have hcond : ((k0 :: rest).getLast hne).time ≤ t := by
        rw [hgl]
        exact hle
      simp only [KeyframeTrack.evaluate, hk]
      rw [if_neg (not_lt.2 (le_trans hk0 hle)), if_pos hcond, hgl]
  · intro i ki ki1 hki hki1 h1 h2
    exact evaluate_bracket hs hki hki1 h1 h2
  · intro ops _ kf hmem
    exact evaluate_at_stored hs hmem

/-- Witness for C7 on the two-keyframe track `{0 ↦ 1, 2 ↦ 5}`, which is
reachable by `add_keyframe(0,1); add_keyframe(2,5)`. -/
theorem claim_C7_witness :
    StrictTimes ⟨[⟨0, 1⟩, ⟨2, 5⟩]⟩ ∧
    (⟨[⟨0, 1⟩, ⟨2, 5⟩]⟩ : KeyframeTrack) =
      KeyframeTrack.ofAdds [(0, 1), (2, 5)] ∧
    KeyframeTrack.evaluate ⟨[⟨0, 1⟩, ⟨2, 5⟩]⟩ (-3) = 1 ∧
    KeyframeTrack.evaluate ⟨[⟨0, 1⟩, ⟨2, 5⟩]⟩ 7 = 5 ∧
    KeyframeTrack.evaluate ⟨[⟨0, 1⟩, ⟨2, 5⟩]⟩ 1 =
      1 + (5 - 1) * ((1 - 0) / (2 - 0)) ∧
    KeyframeTrack.evaluate ⟨[⟨0, 1⟩, ⟨2, 5⟩]⟩ 0 = 1 := by
  have hs : StrictTimes (⟨[⟨0, 1⟩, ⟨2, 5⟩]⟩ : KeyframeTrack) := by
    simp [StrictTimes, List.sorted_cons]
  have hof : (⟨[⟨0, 1⟩, ⟨2, 5⟩]⟩ : KeyframeTrack) =
      KeyframeTrack.ofAdds [(0, 1), (2, 5)] := by
    norm_num [KeyframeTrack.ofAdds, KeyframeTrack.add_keyframe,
      KeyframeTrack.find_keyframe_index, KeyframeTrack.insortKeyframe,
      npIsClose]
  refine ⟨hs, hof, ?_, ?_, ?_, ?_⟩
  · exact (claim_C7 _ (-3) hs).2.1 ⟨0, 1⟩ [⟨2, 5⟩] rfl (by norm_num)
  · exact (claim_C7 _ 7 hs).2.2.1 ⟨2, 5⟩ rfl (by norm_num)
  · exact (claim_C7 _ 1 hs).2.2.2.1 0 ⟨0, 1⟩ ⟨2, 5⟩ rfl rfl (by norm_num)
      (by norm_num)
  · exact (claim_C7 _ 0 hs).2.2.2.2 [(0, 1), (2, 5)] hof ⟨0, 1⟩ (by simp)
